import Mathlib

/-!
# Seastat `server` package: handlers and lifecycle supervisor

A shallow embedding of `server/serve.go`.

* Go strings are byte sequences (`GoString`), each byte a natural number below 256.
* `handleRoot` and `handleHealthz` are functions on an explicit `ResponseWriter` record and an
  explicit client state.
* `Run` and the two goroutines it starts are an event-labelled step function `Run.step` on a
  `State` record (one event per statement that touches shared state); `Run.exec` runs a
  sequence of events.

The library routines the source calls (`utf8.DecodeRune`, `utf8.EncodeRune`, the string and map
encoder of `encoding/json`, `tomb.v2`, `context`, `select`, `time.After`) are transcribed from the
Go standard library and from `gopkg.in/tomb.v2`.
-/

namespace Seastat

/-! ## Go strings and UTF-8 (package `unicode/utf8`) -/

/-- A Go `string`: an immutable sequence of bytes, not necessarily valid UTF-8. -/
abbrev GoString := List Nat

/-- The constant `utf8.RuneError` (U+FFFD). -/
def RuneError : Nat := 0xFFFD

/-- The table `first` of `unicode/utf8`: information about the first byte of an encoding.
`0xF0` (`as`) is ASCII, `0xF1` (`xx`) is invalid; otherwise the low three bits are the size and
the high nibble indexes `acceptRanges`. -/
def first (b : Nat) : Nat :=
  if b < 0x80 then 0xF0
  else if b < 0xC2 then 0xF1
  else if b < 0xE0 then 0x02
  else if b = 0xE0 then 0x13
  else if b < 0xED then 0x03
  else if b = 0xED then 0x23
  else if b < 0xF0 then 0x03
  else if b = 0xF0 then 0x34
  else if b < 0xF4 then 0x04
  else if b = 0xF4 then 0x44
  else 0xF1

/-- The table `acceptRanges` of `unicode/utf8`: the accepted range of the second byte. -/
def acceptRanges (i : Nat) : Nat × Nat :=
  match i with
  | 0 => (0x80, 0xBF)
  | 1 => (0xA0, 0xBF)
  | 2 => (0x80, 0x9F)
  | 3 => (0x90, 0xBF)
  | 4 => (0x80, 0x8F)
  | _ => (0, 0)

/-- The function `utf8.DecodeRuneInString`: the first rune of `s` and its width in bytes.
An invalid encoding gives `(RuneError, 1)`, the empty string `(RuneError, 0)`.
Masks, shifts and ors of disjoint bit fields are written with `%`, `*` and `+`. -/
def decodeRune (s : GoString) : Nat × Nat :=
  match s with
  | [] => (RuneError, 0)
  | s0 :: t =>
    let x := first s0
    if x ≥ 0xF0 then
      (if x = 0xF0 then s0 else RuneError, 1)
    else
      let sz := x % 8
      let accept := acceptRanges (x / 16)
      if t.length + 1 < sz then (RuneError, 1)
      else
        match t with
        | [] => (RuneError, 1)
        | s1 :: t1 =>
          if s1 < accept.1 ∨ accept.2 < s1 then (RuneError, 1)
          else if sz ≤ 2 then ((s0 % 32) * 64 + s1 % 64, 2)
          else
            match t1 with
            | [] => (RuneError, 1)
            | s2 :: t2 =>
              if s2 < 0x80 ∨ 0xBF < s2 then (RuneError, 1)
              else if sz ≤ 3 then ((s0 % 16) * 4096 + (s1 % 64) * 64 + s2 % 64, 3)
              else
                match t2 with
                | [] => (RuneError, 1)
                | s3 :: _ =>
                  if s3 < 0x80 ∨ 0xBF < s3 then (RuneError, 1)
                  else ((s0 % 8) * 262144 + (s1 % 64) * 4096 + (s2 % 64) * 64 + s3 % 64, 4)

/-- The function `utf8.EncodeRune` (as `utf8.AppendRune` on an empty buffer): the UTF-8
encoding of a rune; surrogates and out-of-range values encode as U+FFFD. -/
def encodeRune (r : Nat) : GoString :=
  if r ≤ 0x7F then [r]
  else if r ≤ 0x7FF then [0xC0 + r / 64, 0x80 + r % 64]
  else if r > 0x10FFFF ∨ (0xD800 ≤ r ∧ r ≤ 0xDFFF) then [0xEF, 0xBF, 0xBD]
  else if r ≤ 0xFFFF then [0xE0 + r / 4096, 0x80 + (r / 64) % 64, 0x80 + r % 64]
  else [0xF0 + r / 262144, 0x80 + (r / 4096) % 64, 0x80 + (r / 64) % 64, 0x80 + r % 64]

/-- The bytes of a Go string literal: the UTF-8 encoding of its source text. -/
def lit (s : String) : GoString :=
  s.toList.flatMap (fun c => encodeRune c.toNat)

/-- The function `utf8.ValidString`, with `k` the number of continuation bytes of the current
rune still to be passed over. -/
def validUTF8Aux : Nat → GoString → Bool
  | _, [] => true
  | k + 1, _ :: rest => validUTF8Aux k rest
  | 0, b :: rest =>
    let d := decodeRune (b :: rest)
    if d.1 = RuneError ∧ d.2 = 1 then false
    else validUTF8Aux (d.2 - 1) rest

/-- The function `utf8.ValidString`. -/
def validUTF8 (s : GoString) : Bool := validUTF8Aux 0 s

/-- The shapes of a result of `decodeRune` on a non-empty string. -/
inductive DecodeCase (s0 : Nat) (t : GoString) : Prop where
  | ascii (h : s0 < 0x80) (hd : ∀ u, decodeRune (s0 :: u) = (s0, 1))
  | invalid (h : 0x80 ≤ s0) (hd : decodeRune (s0 :: t) = (RuneError, 1))
  | two (s1 : Nat) (t1 : GoString) (ht : t = s1 :: t1) (h0 : 0xC2 ≤ s0 ∧ s0 < 0xE0)
      (h1 : 0x80 ≤ s1 ∧ s1 ≤ 0xBF)
      (hd : ∀ u, decodeRune (s0 :: s1 :: u) = ((s0 % 32) * 64 + s1 % 64, 2))
  | three (s1 s2 : Nat) (t2 : GoString) (ht : t = s1 :: s2 :: t2) (h0 : 0xE0 ≤ s0 ∧ s0 < 0xF0)
      (h1 : 0x80 ≤ s1 ∧ s1 ≤ 0xBF ∧ (s0 = 0xE0 → 0xA0 ≤ s1) ∧ (s0 = 0xED → s1 ≤ 0x9F))
      (h2 : 0x80 ≤ s2 ∧ s2 ≤ 0xBF)
      (hd : ∀ u, decodeRune (s0 :: s1 :: s2 :: u) =
        ((s0 % 16) * 4096 + (s1 % 64) * 64 + s2 % 64, 3))
  | four (s1 s2 s3 : Nat) (t3 : GoString) (ht : t = s1 :: s2 :: s3 :: t3)
      (h0 : 0xF0 ≤ s0 ∧ s0 < 0xF5)
      (h1 : 0x80 ≤ s1 ∧ s1 ≤ 0xBF ∧ (s0 = 0xF0 → 0x90 ≤ s1) ∧ (s0 = 0xF4 → s1 ≤ 0x8F))
      (h2 : 0x80 ≤ s2 ∧ s2 ≤ 0xBF) (h3 : 0x80 ≤ s3 ∧ s3 ≤ 0xBF)
      (hd : ∀ u, decodeRune (s0 :: s1 :: s2 :: s3 :: u) =
        ((s0 % 8) * 262144 + (s1 % 64) * 4096 + (s2 % 64) * 64 + s3 % 64, 4))

/-! ## The string and map encoder of `encoding/json` -/

/-- The digits `hex` of `encoding/json`. -/
def hexDigit (n : Nat) : Nat :=
  if n < 10 then 0x30 + n else 0x61 + (n - 10)

/-- The table `htmlSafeSet` of `encoding/json`: the ASCII bytes written without escaping when
HTML escaping is on (the setting of `json.Marshal`). -/
def htmlSafeSet (b : Nat) : Bool :=
  decide (0x20 ≤ b ∧ b < 0x80 ∧ b ≠ 0x22 ∧ b ≠ 0x26 ∧ b ≠ 0x3C ∧ b ≠ 0x3E ∧ b ≠ 0x5C)

/-- The escape `appendString` writes for an ASCII byte outside `htmlSafeSet`. `shortBF` is
true for toolchains (Go 1.22 and later) that write backspace and form feed as two-byte
escapes. -/
def escapeASCII (shortBF : Bool) (b : Nat) : GoString :=
  if b = 0x5C ∨ b = 0x22 then [0x5C, b]
  else if b = 0x08 ∧ shortBF then [0x5C, 0x62]
  else if b = 0x0C ∧ shortBF then [0x5C, 0x66]
  else if b = 0x0A then [0x5C, 0x6E]
  else if b = 0x0D then [0x5C, 0x72]
  else if b = 0x09 then [0x5C, 0x74]
  else [0x5C, 0x75, 0x30, 0x30, hexDigit (b / 16), hexDigit (b % 16)]

/-- What `appendString` appends for the rune starting at the head of `s` (non-empty), and the
number of bytes of `s` it passes over. -/
def encodeChunk (shortBF : Bool) (s : GoString) : GoString × Nat :=
  match s with
  | [] => ([], 0)
  | b :: _ =>
    if b < 0x80 then
      if htmlSafeSet b then ([b], 1) else (escapeASCII shortBF b, 1)
    else
      let d := decodeRune s
      if d.1 = RuneError ∧ d.2 = 1 then
        ([0x5C, 0x75, 0x66, 0x66, 0x66, 0x64], 1)
      else if d.1 = 0x2028 ∨ d.1 = 0x2029 then
        ([0x5C, 0x75, 0x32, 0x30, 0x32, hexDigit (d.1 % 16)], d.2)
      else (s.take d.2, d.2)

/-- The loop of `appendString` in `encoding/json` (with `escapeHTML` set), without the
surrounding quotes; `k` is the number of bytes of the current rune still to be passed over. -/
def appendStringAux (shortBF : Bool) : Nat → GoString → GoString
  | _, [] => []
  | k + 1, _ :: rest => appendStringAux shortBF k rest
  | 0, b :: rest =>
    let c := encodeChunk shortBF (b :: rest)
    c.1 ++ appendStringAux shortBF (c.2 - 1) rest

/-- The function `appendString` of `encoding/json`: a Go string as a quoted JSON string. -/
def appendString (shortBF : Bool) (s : GoString) : GoString :=
  0x22 :: (appendStringAux shortBF 0 s ++ [0x22])

/-- Go's `<` on strings: lexicographic order on bytes. -/
def strLt : GoString → GoString → Bool
  | [], [] => false
  | [], _ :: _ => true
  | _ :: _, [] => false
  | a :: as, b :: bs => if a < b then true else if b < a then false else strLt as bs

/-- Insertion of an entry into a list of entries sorted by key. -/
def insertByKey (e : GoString × GoString) : List (GoString × GoString) → List (GoString × GoString)
  | [] => [e]
  | f :: fs => if strLt f.1 e.1 then f :: insertByKey e fs else e :: f :: fs

/-- The entries of a map sorted by key, as `mapEncoder.encode` visits them. -/
def sortByKey : List (GoString × GoString) → List (GoString × GoString)
  | [] => []
  | e :: es => insertByKey e (sortByKey es)

/-- The members of a JSON object, comma-separated. -/
def encodeMembers (shortBF : Bool) : List (GoString × GoString) → GoString
  | [] => []
  | [e] => appendString shortBF e.1 ++ 0x3A :: appendString shortBF e.2
  | e :: f :: fs =>
    appendString shortBF e.1 ++ 0x3A :: appendString shortBF e.2
      ++ 0x2C :: encodeMembers shortBF (f :: fs)

/-- The call `json.Marshal` on a `map[string]string`, given as its list of entries (distinct
keys): a JSON object with the keys in sorted order. It never fails. -/
def jsonMarshalMap (shortBF : Bool) (m : List (GoString × GoString)) : GoString :=
  0x7B :: (encodeMembers shortBF (sortByKey m) ++ [0x7D])

/-! ## Decoding (the string and object reader of `encoding/json`) -/

/-- The value of a hexadecimal digit, as in `getu4`. -/
def hexVal (c : Nat) : Option Nat :=
  if 0x30 ≤ c ∧ c ≤ 0x39 then some (c - 0x30)
  else if 0x61 ≤ c ∧ c ≤ 0x66 then some (c - 0x61 + 10)
  else if 0x41 ≤ c ∧ c ≤ 0x46 then some (c - 0x41 + 10)
  else none

/-- The function `getu4` of `encoding/json`: the value of a `\uXXXX` escape at the head of
`s`, if there is one. -/
def getu4 (s : GoString) : Option Nat :=
  match s with
  | e :: u :: a :: b :: c :: d :: _ =>
    if e = 0x5C ∧ u = 0x75 then
      match hexVal a, hexVal b, hexVal c, hexVal d with
      | some a, some b, some c, some d => some (((a * 16 + b) * 16 + c) * 16 + d)
      | _, _, _, _ => none
    else none
  | _ => none

/-- The function `utf16.IsSurrogate`. -/
def isSurrogate (r : Nat) : Bool := decide (0xD800 ≤ r ∧ r < 0xE000)

/-- The function `utf16.DecodeRune`: the code point of a surrogate pair, U+FFFD if the pair is
not valid. -/
def utf16DecodeRune (r1 r2 : Nat) : Nat :=
  if 0xD800 ≤ r1 ∧ r1 < 0xDC00 ∧ 0xDC00 ≤ r2 ∧ r2 < 0xE000 then
    (r1 - 0xD800) * 1024 + (r2 - 0xDC00) + 0x10000
  else RuneError

/-- One round of the loop of `unquoteBytes` in `encoding/json`, at a byte that is not the
closing quote: the bytes produced and the number of input bytes consumed, or `none` on a
syntax error. -/
def unquoteChunk (s : GoString) : Option (GoString × Nat) :=
  match s with
  | [] => none
  | c :: t =>
    if c = 0x5C then
      match t with
      | [] => none
      | e :: _ =>
        if e = 0x22 ∨ e = 0x5C ∨ e = 0x2F then some ([e], 2)
        else if e = 0x62 then some ([0x08], 2)
        else if e = 0x66 then some ([0x0C], 2)
        else if e = 0x6E then some ([0x0A], 2)
        else if e = 0x72 then some ([0x0D], 2)
        else if e = 0x74 then some ([0x09], 2)
        else if e = 0x75 then
          match getu4 s with
          | none => none
          | some rr =>
            if isSurrogate rr then
              match getu4 (s.drop 6) with
              | some rr1 =>
                if utf16DecodeRune rr rr1 ≠ RuneError then
                  some (encodeRune (utf16DecodeRune rr rr1), 12)
                else some (encodeRune RuneError, 6)
              | none => some (encodeRune RuneError, 6)
            else some (encodeRune rr, 6)
        else none
    else if c = 0x22 ∨ c < 0x20 then none
    else if c < 0x80 then some ([c], 1)
    else
      let d := decodeRune s
      some (encodeRune d.1, d.2)

/-- The body of a JSON string after its opening quote: the decoded Go string and the input
that follows the closing quote; `k` is the number of input bytes still to be passed over. -/
def unquoteAux : Nat → GoString → Option (GoString × GoString)
  | _, [] => none
  | k + 1, _ :: rest => unquoteAux k rest
  | 0, c :: rest =>
    if c = 0x22 then some ([], rest)
    else
      match unquoteChunk (c :: rest) with
      | none => none
      | some (out, n) =>
        match unquoteAux (n - 1) rest with
        | none => none
        | some (s, r) => some (out ++ s, r)

/-- A JSON string at the head of the input: its value and the rest of the input. -/
def decodeString (s : GoString) : Option (GoString × GoString) :=
  match s with
  | [] => none
  | q :: t => if q = 0x22 then unquoteAux 0 t else none

/-- The members of a compact JSON object with string values, up to and including the closing
brace, which must end the input. -/
def decodeMembers : Nat → GoString → Option (List (GoString × GoString))
  | 0, _ => none
  | fuel + 1, s =>
    match decodeString s with
    | none => none
    | some (k, r1) =>
      match r1 with
      | [] => none
      | colon :: r2 =>
        if colon ≠ 0x3A then none
        else
          match decodeString r2 with
          | none => none
          | some (v, r3) =>
            match r3 with
            | [] => none
            | sep :: r4 =>
              if sep = 0x7D then (if r4 = [] then some [(k, v)] else none)
              else if sep = 0x2C then
                match decodeMembers fuel r4 with
                | none => none
                | some es => some ((k, v) :: es)
              else none

/-- Decoding of a compact JSON object whose values are strings (what `json.Unmarshal` into a
`map[string]string` reads from the output of `json.Marshal`), as the list of its members in
order of appearance. -/
def jsonDecodeObject (s : GoString) : Option (List (GoString × GoString)) :=
  match s with
  | [] => none
  | b :: t =>
    if b ≠ 0x7B then none
    else if t = [0x7D] then some []
    else decodeMembers t.length t

/-! ## The handlers -/

/-- A Go `error` value that is not nil: the sentinel `http.ErrServerClosed`, told apart by
identity, or any other error with its message (the result of its `Error` method). -/
inductive GoError where
  | ErrServerClosed
  | other (msg : GoString)
  deriving DecidableEq, Repr

/-- The method `Error` of an error value. -/
def GoError.Error : GoError → GoString
  | .ErrServerClosed => lit "http: Server closed"
  | .other msg => msg

/-- The rendering `fmt.Sprintf("%v", err)` of a non-nil error: its `Error` text. -/
def sprintfV (err : GoError) : GoString := err.Error

/-- The variables `flags.Version` and `flags.GitCommitHash`, both strings. -/
structure Flags where
  Version : GoString
  GitCommitHash : GoString

/-- What a handler can do to an `http.ResponseWriter`: the status line sent (`none` before any
header is written), the body bytes written, and how many times `WriteHeader` and `Write` were
called. -/
structure ResponseWriter where
  status : Option Nat
  body : GoString
  headerCalls : Nat
  writeCalls : Nat
  deriving DecidableEq, Repr

/-- The writer the server hands to a handler. -/
def ResponseWriter.fresh : ResponseWriter := ⟨none, [], 0, 0⟩

/-- The method `WriteHeader`: the first call fixes the status, later calls are ignored. -/
def ResponseWriter.WriteHeader (w : ResponseWriter) (code : Nat) : ResponseWriter :=
  { w with
    status := match w.status with
      | none => some code
      | some c => some c
    headerCalls := w.headerCalls + 1 }

/-- The method `Write`: sends status 200 first if no header was written. -/
def ResponseWriter.Write (w : ResponseWriter) (b : GoString) : ResponseWriter :=
  { w with
    status := match w.status with
      | none => some 200
      | some c => some c
    body := w.body ++ b
    writeCalls := w.writeCalls + 1 }

/-- The fields of an `http.Request` a handler could look at. -/
structure Request where
  method : GoString
  path : GoString
  body : GoString

/-- The interface `jolokia.Client`, as far as the server uses it: `Version` returns a version
string and an error (`none` is nil) and may change the state `σ` of the client and of the world
behind it. -/
structure Client (σ : Type) where
  Version : σ → (GoString × Option GoError) × σ

/-- The constants `http.StatusOK` and `http.StatusServiceUnavailable`. -/
def StatusOK : Nat := 200

/-- The constant `http.StatusServiceUnavailable`. -/
def StatusServiceUnavailable : Nat := 503

/-- The handler returned by `handleRoot` (serve.go, lines 78-83). -/
def handleRoot (flags : Flags) (w : ResponseWriter) (_r : Request) : ResponseWriter :=
  let w := w.WriteHeader StatusOK
  w.Write (lit "🌊 Seastat Cassandra Exporter " ++ flags.Version ++ lit " (Commit: "
    ++ flags.GitCommitHash ++ lit ")")

/-- The handler returned by `handleHealthz` (serve.go, lines 85-99), on client state `st`:
the writer after the handler and the client state after it. -/
def handleHealthz {σ : Type} (shortBF : Bool) (flags : Flags) (client : Client σ)
    (w : ResponseWriter) (_r : Request) (st : σ) : ResponseWriter × σ :=
  let res := client.Version st
  match res.1.2 with
  | some err =>
    let w := w.WriteHeader StatusServiceUnavailable
    let v := jsonMarshalMap shortBF [(lit "error", sprintfV err)]
    (w.Write v, res.2)
  | none =>
    let w := w.WriteHeader StatusOK
    let v := jsonMarshalMap shortBF [(lit "jolokia", res.1.1), (lit "seastat", flags.Version)]
    (w.Write v, res.2)

/-- A client that also counts the calls of `Version` made on it. -/
def Client.counted {σ : Type} (c : Client σ) : Client (σ × Nat) :=
  { Version := fun s => ((c.Version s.1).1, ((c.Version s.1).2, s.2 + 1)) }

/-- The server answering a sequence of `/healthz` requests one after the other, each with a
fresh writer: the responses in order and the final client state. -/
def serveHealthz {σ : Type} (shortBF : Bool) (flags : Flags) (client : Client σ) :
    List Request → σ → List ResponseWriter × σ
  | [], st => ([], st)
  | r :: rs, st =>
    let a := handleHealthz shortBF flags client ResponseWriter.fresh r st
    let b := serveHealthz shortBF flags client rs a.2
    (a.1 :: b.1, b.2)

/-- A client whose every call returns the same result. -/
def constClient (v : GoString) (err : Option GoError) : Client Unit :=
  { Version := fun s => ((v, err), s) }

/-! ## The tomb (`gopkg.in/tomb.v2`) -/

/-- The field `reason` of a tomb: the sentinel `ErrStillAlive`, nil, or another error with its
message. -/
inductive Reason where
  | stillAlive
  | nil
  | err (msg : GoString)
  deriving DecidableEq, Repr

/-- The fields of a `tomb.Tomb` after `init`: the number of tracked goroutines still running,
whether the channels `dying` and `dead` are closed, and the reason. -/
structure Tomb where
  alive : Int
  dying : Bool
  dead : Bool
  reason : Reason
  deriving DecidableEq, Repr

/-- The zero tomb `tomb.Tomb{}` once `init` has run. -/
def Tomb.fresh : Tomb := ⟨0, false, false, .stillAlive⟩

/-- The reason stored for an argument of `kill`: nil (`none`) or an error that is neither
`ErrStillAlive` nor `ErrDying`. -/
def Reason.ofArg : Option GoString → Reason
  | none => .nil
  | some msg => .err msg

/-- The method `kill` of a tomb, for an argument that is nil or an error other than the two
sentinels of the package (`Run` passes no sentinel): the first call on a tomb that is still
alive stores the reason and closes `dying`; a later call replaces only a nil reason. -/
def Tomb.kill (t : Tomb) (reason : Option GoString) : Tomb :=
  if t.reason = .stillAlive then { t with reason := Reason.ofArg reason, dying := true }
  else if t.reason = .nil then { t with reason := Reason.ofArg reason }
  else t

/-- The method `Go` of a tomb, up to the start of the goroutine: it panics (`none`) when `dead`
is closed, and counts the new goroutine otherwise. -/
def Tomb.Go (t : Tomb) : Option Tomb :=
  if t.dead then none else some { t with alive := t.alive + 1 }

/-- The end of the method `run` of a tomb, after the goroutine function returned `err`: the
count goes down; if it reaches zero or `err` is not nil the tomb is killed with `err`, and if
it reached zero `dead` is closed. -/
def Tomb.runExit (t : Tomb) (err : Option GoString) : Tomb :=
  let t1 := { t with alive := t.alive - 1 }
  if t1.alive = 0 ∨ err ≠ none then
    let t2 := t1.kill err
    if t2.alive = 0 then { t2 with dead := true } else t2
  else t1

/-! ## `Run` and its two goroutines -/

/-- The duration `10 * time.Second`, in nanoseconds. -/
def gracePeriod : Nat := 10 * 1000000000

/-- The argument of `os.Exit` on line 74. -/
def forcedExitStatus : Nat := 128

/-- Which case of the first `select` was taken. -/
inductive WakeReason where
  | signal
  | tombDying
  deriving DecidableEq, Repr

/-- Where the goroutine that runs `Run` is.
* `start`: before `t.Go` on line 41;
* `spawned`: after it, before the `select` on line 60;
* `awaitTermination`: blocked in the `select` on line 60;
* `woken`: a case of that `select` was taken; the log call of line 62 or 64 and `cancel()` on
  line 66 are next;
* `cancelled`: after `cancel()`, before the `select` on line 69;
* `awaitDead`: blocked in the `select` on line 69, the timer running;
* `goodbye`: the case `<-t.Dead()` was taken; the log call of line 71 and the return are next;
* `timedOut`: the case of the timer was taken; the log call of line 73 and `os.Exit(128)` on
  line 74 are next;
* `returned`: `Run` has returned (line 76);
* `exited`: `os.Exit(128)` was called (line 74).

A log call writes to the log sink under the mutex of the logger and takes as long as the sink
and the mutex make it take: the goroutine stays where it is while the clock advances. -/
inductive MainPc where
  | start
  | spawned
  | awaitTermination
  | woken
  | cancelled
  | awaitDead
  | goodbye
  | timedOut
  | returned
  | exited
  deriving DecidableEq, Repr

/-- Where the HTTP worker (the function passed to `t.Go` on line 41) is.
* `started`: running, the nested `t.Go` on line 43 is next;
* `serving`: inside `srv.ListenAndServe()`;
* `served`: `ListenAndServe` has returned, the test on line 49 is next (with the log call of
  line 50 and `t.Kill` on line 51 if it holds);
* `finishing`: after the `if`; the log call of line 53 and `return nil` on line 54 are next;
* `done`: it has returned and the tomb has accounted for it. -/
inductive OuterPc where
  | notStarted
  | started
  | serving
  | served
  | finishing
  | done
  deriving DecidableEq, Repr

/-- Where the shutdown watcher (the function passed to `t.Go` on line 43) is.
* `waiting`: blocked on `<-ctx.Done()`;
* `woken`: past it, `srv.Shutdown(ctx)` is next;
* `finishing`: `Shutdown` has returned, `return nil` on line 46 is next;
* `done`: it has returned and the tomb has accounted for it. -/
inductive WatcherPc where
  | notStarted
  | waiting
  | woken
  | finishing
  | done
  deriving DecidableEq, Repr

/-- The state of one execution of `Run`. The field `timeout` and the fields from `cancelCalls`
to `wakeReason` only record what has happened; whether and how a step happens never depends on
them. Times are in nanoseconds. -/
structure State where
  main : MainPc
  outer : OuterPc
  watcher : WatcherPc
  tomb : Tomb
  /-- Whether the channel `ctx.Done()` is closed. -/
  ctxDone : Bool
  /-- The value `srv.ListenAndServe()` returned (`some none` is nil), once it has returned. -/
  listenErr : Option (Option GoError)
  /-- The clock. -/
  now : Nat
  /-- When `time.After` on line 72 was called. -/
  timerStart : Option Nat
  /-- When the case of the timer was taken, and whether the tomb was dead then. -/
  timeout : Option (Nat × Bool)
  /-- The status the process exited with. -/
  exitStatus : Option Nat
  /-- Whether `t.Go` panicked. -/
  panicked : Bool
  /-- The number of calls of `cancel()`. -/
  cancelCalls : Nat
  /-- The arguments of the calls of `t.Kill`, latest first (`none` is nil). -/
  killLog : List (Option GoString)
  /-- For each call of `srv.Shutdown`, latest first, whether the context passed to it was
  already cancelled. -/
  shutdownLog : List Bool
  /-- The results the watcher returned (`none` is nil). -/
  watcherResults : List (Option GoString)
  /-- The number of signals delivered to the channel `sigs` or dropped because it was full. -/
  signals : Nat
  /-- The case taken by the first `select`. -/
  wakeReason : Option WakeReason
  deriving DecidableEq, Repr

/-- The state when `Run` is called at time `t0`. -/
def State.init (t0 : Nat) : State :=
  { main := .start, outer := .notStarted, watcher := .notStarted, tomb := Tomb.fresh,
    ctxDone := false, listenErr := none, now := t0, timerStart := none, timeout := none,
    exitStatus := none,
    panicked := false, cancelCalls := 0, killLog := [], shutdownLog := [],
    watcherResults := [], signals := 0, wakeReason := none }

/-- What happens to the goroutine of `Run` when a worker has changed the tomb: blocked in the
first `select`, it takes the case `<-t.Dying()` if `dying` is now closed; blocked in the second
`select`, it takes the case `<-t.Dead()` if `dead` is now closed. -/
def notifyMain (s : State) : State :=
  match s.main with
  | .awaitTermination =>
    if s.tomb.dying then { s with main := .woken, wakeReason := some .tombDying } else s
  | .awaitDead => if s.tomb.dead then { s with main := .goodbye } else s
  | _ => s

/-- The rendering `fmt.Sprintf("%v", err)` of an error that may be nil. -/
def sprintfVOpt : Option GoError → GoString
  | none => lit "<nil>"
  | some e => sprintfV e

/-- The message of `fmt.Errorf("error whilst serving: %v", err)` on line 51. -/
def servingError (err : Option GoError) : GoString :=
  lit "error whilst serving: " ++ sprintfVOpt err

/-- The steps of an execution of `Run`: a statement of one of the three goroutines, or an act
of the environment (a signal, the passing of time, the return of `ListenAndServe`). -/
inductive Event where
  /-- Line 41: `t.Go` starts the HTTP worker. -/
  | mainGo
  /-- Lines 58-60: the channel `sigs` is made and registered, and the first `select` is
  entered. -/
  | mainSelect
  /-- The operating system delivers SIGINT or SIGTERM, once `Run` has registered for them. -/
  | signal
  /-- Line 66: the log call of line 62 or 64 has returned and `cancel()` is called. -/
  | mainCancel
  /-- Lines 69 and 72: `time.After(10 * time.Second)` is called and the second `select` is
  entered. -/
  | mainWait
  /-- The timer of line 72 delivers on its channel and the second `select` takes its case. -/
  | timerFire
  /-- Lines 73-74: the log call of line 73 has returned and `os.Exit(128)` is called. -/
  | mainExit
  /-- Lines 71 and 76: the log call of line 71 has returned and `Run` returns. -/
  | mainReturn
  /-- The clock advances by `d` nanoseconds. -/
  | tick (d : Nat)
  /-- Line 43: the HTTP worker starts the watcher with `t.Go`, then calls
  `ListenAndServe`. -/
  | outerGo
  /-- Line 49: `srv.ListenAndServe()` returns `err` (`none` is nil). -/
  | serveReturn (err : Option GoError)
  /-- Lines 49-52: the test `err != http.ErrServerClosed` and, if it holds, the log call of
  line 50 and `t.Kill`. -/
  | outerCheck
  /-- Lines 53-54: the log call of line 53 has returned and the HTTP worker returns nil; the
  tomb accounts for it. -/
  | outerReturn
  /-- Line 44: `<-ctx.Done()` returns. -/
  | watcherDone
  /-- Line 45: `srv.Shutdown(ctx)` is called and returns. -/
  | watcherShutdown
  /-- Line 46: the watcher returns nil; the tomb accounts for it. -/
  | watcherReturn
  deriving DecidableEq, Repr

/-- Whether the execution is over: `Run` has returned, the process has exited, or a panic has
ended it. -/
def State.ended (s : State) : Bool :=
  s.panicked || s.main == .returned || s.main == .exited

/-- One step of an execution of `Run`; `none` when the event cannot happen in state `s`.

Atomicity: registering for signals and entering the first `select` is one step, and so is
calling `time.After` and entering the second `select`. A goroutine blocked in a `select`
takes the case of the first channel that becomes ready, in the step that makes it ready
(`notifyMain`, `signal`, `timerFire`); the statements of that case are later steps. The
channel of the timer is not ready before its deadline; how long after the deadline the case is
taken is left open. The clock is free: every statement, and so every log call (lines 50, 53,
62, 64, 71, 73), may take any time, and need not return at all.
`ListenAndServe` may return any value at any time. A signal before `Run` has registered for it
is outside the model (the runtime ends the process), and so is everything after `Run` has
returned or the process has exited. -/
def Run.step (s : State) (e : Event) : Option State :=
  if s.ended then none
  else
    match e with
    | .mainGo =>
      if s.main = .start then
        match s.tomb.Go with
        | none => some { s with panicked := true }
        | some t => some { s with tomb := t, outer := .started, main := .spawned }
      else none
    | .mainSelect =>
      if s.main = .spawned then
        if s.tomb.dying then
          some { s with main := .woken, wakeReason := some .tombDying }
        else some { s with main := .awaitTermination }
      else none
    | .signal =>
      match s.main with
      | .awaitTermination =>
        some { s with main := .woken, wakeReason := some .signal, signals := s.signals + 1 }
      | .woken | .cancelled | .awaitDead | .goodbye | .timedOut =>
        some { s with signals := s.signals + 1 }
      | _ => none
    | .mainCancel =>
      if s.main = .woken then
        some { s with ctxDone := true, cancelCalls := s.cancelCalls + 1, main := .cancelled }
      else none
    | .mainWait =>
      if s.main = .cancelled then
        if s.tomb.dead then some { s with timerStart := some s.now, main := .goodbye }
        else some { s with timerStart := some s.now, main := .awaitDead }
      else none
    | .timerFire =>
      match s.main, s.timerStart with
      | .awaitDead, some t0 =>
        if t0 + gracePeriod ≤ s.now then
          some { s with main := .timedOut, timeout := some (s.now, s.tomb.dead) }
        else none
      | _, _ => none
    | .mainExit =>
      if s.main = .timedOut then
        some { s with main := .exited, exitStatus := some forcedExitStatus }
      else none
    | .mainReturn =>
      if s.main = .goodbye then some { s with main := .returned } else none
    | .tick d =>
      if d = 0 then none else some { s with now := s.now + d }
    | .outerGo =>
      if s.outer = .started then
        match s.tomb.Go with
        | none => some { s with panicked := true }
        | some t => some { s with tomb := t, watcher := .waiting, outer := .serving }
      else none
    | .serveReturn err =>
      if s.outer = .serving then some { s with listenErr := some err, outer := .served }
      else none
    | .outerCheck =>
      match s.outer, s.listenErr with
      | .served, some err =>
        if err ≠ some GoError.ErrServerClosed then
          some (notifyMain { s with
            tomb := s.tomb.kill (some (servingError err))
            killLog := some (servingError err) :: s.killLog
            outer := .finishing })
        else some { s with outer := .finishing }
      | _, _ => none
    | .outerReturn =>
      if s.outer = .finishing then
        some (notifyMain { s with tomb := s.tomb.runExit none, outer := .done })
      else none
    | .watcherDone =>
      if s.watcher = .waiting ∧ s.ctxDone = true then some { s with watcher := .woken }
      else none
    | .watcherShutdown =>
      if s.watcher = .woken then
        some { s with shutdownLog := s.ctxDone :: s.shutdownLog, watcher := .finishing }
      else none
    | .watcherReturn =>
      if s.watcher = .finishing then
        some (notifyMain { s with
          tomb := s.tomb.runExit none
          watcherResults := none :: s.watcherResults
          watcher := .done })
      else none

/-- The state after a sequence of events, `none` if one of them cannot happen. -/
def Run.exec (s : State) : List Event → Option State
  | [] => some s
  | e :: es =>
    match Run.step s e with
    | none => none
    | some s1 => Run.exec s1 es

/-- The states an execution of `Run` can be in. -/
def Reachable (s : State) : Prop :=
  ∃ (t0 : Nat) (es : List Event), Run.exec (State.init t0) es = some s

/-- The phases of the supervisor in the specification. -/
inductive Phase where
  | idle
  | running
  | cancelling
  | terminatedClean
  | terminatedForced
  deriving DecidableEq, Repr

/-- The phase a state of `Run` is in. -/
def phase (s : State) : Phase :=
  match s.main with
  | .start => .idle
  | .spawned | .awaitTermination => .running
  | .woken | .cancelled | .awaitDead | .goodbye | .timedOut => .cancelling
  | .returned => .terminatedClean
  | .exited => .terminatedForced

/-- The position of a phase in the order idle, running, cancelling, terminated. -/
def Phase.rank : Phase → Nat
  | .idle => 0
  | .running => 1
  | .cancelling => 2
  | .terminatedClean => 3
  | .terminatedForced => 3

/-- The transitions between phases the specification lists. -/
def PhaseStep (p q : Phase) : Prop :=
  (p = .idle ∧ q = .running) ∨ (p = .running ∧ q = .cancelling) ∨
  (p = .cancelling ∧ q = .terminatedClean) ∨ (p = .cancelling ∧ q = .terminatedForced)

/-- Whether the HTTP worker is running (counted by the tomb). -/
def OuterPc.active : OuterPc → Int
  | .started | .serving | .served | .finishing => 1
  | .notStarted | .done => 0

/-- Whether the watcher is running (counted by the tomb). -/
def WatcherPc.active : WatcherPc → Int
  | .waiting | .woken | .finishing => 1
  | .notStarted | .done => 0

/-- Whether `cancel()` on line 66 has been executed. -/
def MainPc.afterCancel : MainPc → Bool
  | .cancelled | .awaitDead | .goodbye | .timedOut | .returned | .exited => true
  | .start | .spawned | .awaitTermination | .woken => false

/-- Whether the first `select` has been left. -/
def MainPc.afterWake : MainPc → Bool
  | .start | .spawned | .awaitTermination => false
  | _ => true

/-- Whether `time.After` on line 72 has been called. -/
def MainPc.timerSet : MainPc → Bool
  | .awaitDead | .goodbye | .timedOut | .returned | .exited => true
  | _ => false

/-- Whether the case of the timer has been taken. -/
def MainPc.afterTimeout : MainPc → Bool
  | .timedOut | .exited => true
  | _ => false

/-- Whether the test on line 49 has been executed. -/
def OuterPc.afterCheck : OuterPc → Bool
  | .finishing | .done => true
  | _ => false

/-- Whether `ListenAndServe` has returned. -/
def OuterPc.afterServe : OuterPc → Bool
  | .served | .finishing | .done => true
  | _ => false

/-- The calls of `t.Kill` the HTTP worker has made when it is at `pc` and `ListenAndServe`
returned `err`. -/
def expectedKillLog (pc : OuterPc) (err : Option (Option GoError)) : List (Option GoString) :=
  match err with
  | some e =>
    if pc.afterCheck = true ∧ e ≠ some GoError.ErrServerClosed then [some (servingError e)]
    else []
  | none => []

/-- The facts that hold in every state of an execution of `Run`, also between the moment a
worker changes the tomb and the moment the blocked goroutine of `Run` is woken. -/
structure InvW (s : State) : Prop where
  notPanicked : s.panicked = false
  alive_eq : s.tomb.alive = s.outer.active + s.watcher.active
  start_iff : s.main = .start ↔ s.outer = .notStarted
  watcher_iff : s.watcher = .notStarted ↔ (s.outer = .notStarted ∨ s.outer = .started)
  dead_iff : s.tomb.dead = true ↔ (s.outer = .done ∧ s.watcher = .done)
  dying_iff : s.tomb.dying = true ↔ s.tomb.reason ≠ .stillAlive
  dead_dying : s.tomb.dead = true → s.tomb.dying = true
  cancel_eq : s.cancelCalls = if s.main.afterCancel then 1 else 0
  ctx_eq : s.ctxDone = s.main.afterCancel
  watcher_ctx : s.watcher = .woken ∨ s.watcher = .finishing ∨ s.watcher = .done →
    s.ctxDone = true
  shutdown_eq : s.shutdownLog =
    if s.watcher = .finishing ∨ s.watcher = .done then [true] else []
  results_eq : s.watcherResults = if s.watcher = .done then [none] else []
  listen_iff : s.listenErr.isSome = s.outer.afterServe
  kill_eq : s.killLog = expectedKillLog s.outer s.listenErr
  kill_reason : ∀ msg, s.killLog = [some msg] → s.tomb.reason = .err msg
  wake_iff : s.wakeReason.isSome = s.main.afterWake
  wake_dying : s.wakeReason = some .tombDying → s.tomb.dying = true
  wake_signal : s.wakeReason = some .signal → 1 ≤ s.signals
  timer_iff : s.timerStart.isSome = s.main.timerSet
  timer_le : ∀ t0, s.timerStart = some t0 → t0 ≤ s.now
  timeout_iff : s.timeout.isSome = s.main.afterTimeout
  timeout_at : ∀ t0 x, s.timerStart = some t0 → s.timeout = some x →
    x.2 = false ∧ t0 + gracePeriod ≤ x.1 ∧ x.1 ≤ s.now
  exit_eq : s.exitStatus = if s.main = .exited then some forcedExitStatus else none
  returned_dead : s.main = .goodbye ∨ s.main = .returned → s.tomb.dead = true
  dying_cause : s.tomb.dying = true → s.killLog ≠ [] ∨ s.tomb.dead = true
  reason_err : ∀ msg, s.tomb.reason = .err msg → s.killLog = [some msg]

/-- The facts that hold in every state of an execution of `Run`: those of `InvW`, and a
goroutine blocked in a `select` has no ready case. -/
structure Inv (s : State) extends InvW s : Prop where
  parked_first : s.main = .awaitTermination → s.tomb.dying = false
  parked_second : s.main = .awaitDead → s.tomb.dead = false

/-! ## `(*http.Server).Shutdown` (package `net/http`) -/

/-- How a call of `srv.Shutdown` ended: every connection had become idle (it returns the
listeners' close error), or the context was done first (it returns the context's error). -/
inductive ShutdownResult where
  | drained
  | contextError
  deriving DecidableEq, Repr

/-- The polling loop of `(*http.Server).Shutdown`, entered once the listeners are closed. At
poll `i` it returns if every connection is idle (`idle i`); otherwise it selects on
`ctx.Done()` (`ctxDone i`) and the poll timer, returning the context's error when the context
is done and polling again when the timer fires. The result is the number of polls made and how
the call ended; `none` if it is still polling after `fuel` polls. -/
def srvShutdown (ctxDone idle : Nat → Bool) : Nat → Nat → Option (Nat × ShutdownResult)
  | 0, _ => none
  | fuel + 1, i =>
    if idle i then some (i + 1, .drained)
    else if ctxDone i then some (i + 1, .contextError)
    else srvShutdown ctxDone idle fuel (i + 1)

/-! ## Sample inputs and executions -/

/-- A request for `/healthz`. -/
def healthzRequest : Request := ⟨lit "GET", lit "/healthz", []⟩

/-- Build-time values of the two flags. -/
def sampleFlags : Flags := ⟨lit "1.0.0", lit "abc123"⟩

/-- A client whose version string is the single byte `0xFF`, which is not valid UTF-8. -/
def invalidVersionClient : Client Unit := constClient [0xFF] none

/-- The error `ListenAndServe` returns when the port is already bound. -/
def bindError : GoError := .other (lit "listen tcp :8080: bind: address already in use")

/-- An execution in which the listener fails at startup: `ListenAndServe` returns the bind
error at once, the worker kills the tomb and returns, `Run` sees the tomb dying and cancels,
the watcher shuts the server down and returns, and `Run` finds the tomb dead. -/
def bindFailureTrace : List Event :=
  [.mainGo, .outerGo, .serveReturn (some bindError), .outerCheck, .outerReturn, .mainSelect,
    .mainCancel, .watcherDone, .watcherShutdown, .watcherReturn, .mainWait, .mainReturn]

/-- An execution ended by a signal in which both workers finish within the grace period. -/
def cleanTrace : List Event :=
  [.mainGo, .outerGo, .mainSelect, .tick 5000000000, .signal, .mainCancel, .mainWait,
    .watcherDone, .watcherShutdown, .serveReturn (some .ErrServerClosed), .outerCheck,
    .outerReturn, .tick 3000000000, .watcherReturn, .mainReturn]

/-- An execution ended by a signal in which the watcher hangs and the grace period runs
out. -/
def forcedTrace : List Event :=
  [.mainGo, .outerGo, .mainSelect, .signal, .mainCancel, .mainWait, .watcherDone,
    .tick gracePeriod, .timerFire, .mainExit]

/-- An execution up to the point where `Run` is blocked in its first `select` and
`ListenAndServe` has just returned an error; the test on line 49 is next. -/
def parkedFailureTrace : List Event :=
  [.mainGo, .outerGo, .mainSelect, .serveReturn (some bindError)]

/-- An execution in which the listener fails while `Run` is blocked in its first `select`:
the worker kills the tomb, which wakes `Run`, and `Run` calls `cancel()`. -/
def lateFailureTrace : List Event :=
  parkedFailureTrace ++ [.outerCheck, .mainCancel]

/-- An execution ended by a signal in which the log sink accepts no writes: the HTTP worker
is stuck in the log call of line 53, the grace period runs out, `Run` takes the case of the
timer, and the log call of line 73 does not return either. Fifteen seconds after the deadline
`Run` is still at line 73. -/
def blockedLogTrace : List Event :=
  [.mainGo, .outerGo, .mainSelect, .signal, .mainCancel, .mainWait, .watcherDone,
    .watcherShutdown, .serveReturn (some .ErrServerClosed), .outerCheck, .watcherReturn,
    .tick gracePeriod, .timerFire, .tick 15000000000]

/-- The state at the end of a trace started at time 0 (the initial state if the trace cannot
run). -/
def stateAfter (es : List Event) : State :=
  (Run.exec (State.init 0) es).getD (State.init 0)

/-! # Theorems -/

/-! ## Properties of the UTF-8 routines -/

theorem first_ascii {b : Nat} (h : b < 0x80) : first b = 0xF0 := by
  simp [first, h]

theorem first_invalid {b : Nat} (h : 0x80 ≤ b ∧ (b < 0xC2 ∨ 0xF5 ≤ b)) : first b = 0xF1 := by
  unfold first
  split_ifs
  all_goals omega

theorem first_two {b : Nat} (h : 0xC2 ≤ b ∧ b < 0xE0) : first b = 0x02 := by
  unfold first
  split_ifs
  all_goals omega

theorem first_three {b : Nat} (h : 0xE1 ≤ b ∧ b < 0xF0 ∧ b ≠ 0xED) : first b = 0x03 := by
  unfold first
  split_ifs
  all_goals omega

theorem first_four {b : Nat} (h : 0xF1 ≤ b ∧ b < 0xF4) : first b = 0x04 := by
  unfold first
  split_ifs
  all_goals omega

theorem decodeCase_two (s0 : Nat) (t : GoString) (hf : first s0 = 0x02)
    (h0 : 0xC2 ≤ s0 ∧ s0 < 0xE0) : DecodeCase s0 t := by
  rcases t with _ | ⟨s1, t1⟩
  · exact .invalid (by omega) (by simp [decodeRune, hf])
  · by_cases h1 : s1 < 0x80 ∨ 0xBF < s1
    · exact .invalid (by omega) (by simp [decodeRune, hf, acceptRanges, h1])
    · exact .two s1 t1 rfl h0 (by omega)
        (fun u => by simp [decodeRune, hf, acceptRanges, h1])

theorem decodeCase_three (s0 : Nat) (t : GoString) (x lo hi : Nat) (hf : first s0 = x)
    (hx : x % 8 = 3 ∧ x < 0xF0) (ha : acceptRanges (x / 16) = (lo, hi))
    (h0 : 0xE0 ≤ s0 ∧ s0 < 0xF0)
    (hlo : 0x80 ≤ lo ∧ (s0 = 0xE0 → 0xA0 ≤ lo)) (hhi : hi ≤ 0xBF ∧ (s0 = 0xED → hi ≤ 0x9F)) :
    DecodeCase s0 t := by
  have hnx : ¬ (x ≥ 0xF0) := by omega
  rcases t with _ | ⟨s1, t1⟩
  · exact .invalid (by omega) (by simp [decodeRune, hf, hx, hnx])
  · by_cases h1 : s1 < lo ∨ hi < s1
    · exact .invalid (by omega) (by simp [decodeRune, hf, hx, ha, h1, hnx])
    · rcases t1 with _ | ⟨s2, t2⟩
      · exact .invalid (by omega) (by simp [decodeRune, hf, hx, ha, h1, hnx])
      · by_cases h2 : s2 < 0x80 ∨ 0xBF < s2
        · exact .invalid (by omega) (by simp [decodeRune, hf, hx, ha, h1, h2, hnx])
        · exact .three s1 s2 t2 rfl h0 (by omega) (by omega)
            (fun u => by simp [decodeRune, hf, hx, ha, h1, h2, hnx])

theorem decodeCase_four (s0 : Nat) (t : GoString) (x lo hi : Nat) (hf : first s0 = x)
    (hx : x % 8 = 4 ∧ x < 0xF0) (ha : acceptRanges (x / 16) = (lo, hi))
    (h0 : 0xF0 ≤ s0 ∧ s0 < 0xF5)
    (hlo : 0x80 ≤ lo ∧ (s0 = 0xF0 → 0x90 ≤ lo)) (hhi : hi ≤ 0xBF ∧ (s0 = 0xF4 → hi ≤ 0x8F)) :
    DecodeCase s0 t := by
  have hnx : ¬ (x ≥ 0xF0) := by omega
  rcases t with _ | ⟨s1, t1⟩
  · exact .invalid (by omega) (by simp [decodeRune, hf, hx, hnx])
  · by_cases h1 : s1 < lo ∨ hi < s1
    · exact .invalid (by omega) (by simp [decodeRune, hf, hx, ha, h1, hnx])
    · rcases t1 with _ | ⟨s2, t2⟩
      · exact .invalid (by omega) (by simp [decodeRune, hf, hx, ha, h1, hnx])
      · by_cases h2 : s2 < 0x80 ∨ 0xBF < s2
        · exact .invalid (by omega) (by simp [decodeRune, hf, hx, ha, h1, h2, hnx])
        · rcases t2 with _ | ⟨s3, t3⟩
          · exact .invalid (by omega) (by simp [decodeRune, hf, hx, ha, h1, h2, hnx])
          · by_cases h3 : s3 < 0x80 ∨ 0xBF < s3
            · exact .invalid (by omega) (by simp [decodeRune, hf, hx, ha, h1, h2, h3, hnx])
            · exact .four s1 s2 s3 t3 rfl h0 (by omega) (by omega) (by omega)
                (fun u => by simp [decodeRune, hf, hx, ha, h1, h2, h3, hnx])

/-- Every result of `decodeRune` on a non-empty string has one of the five shapes. -/
theorem decodeCase (s0 : Nat) (t : GoString) : DecodeCase s0 t := by
  by_cases a : s0 < 0x80
  · exact .ascii a (fun u => by simp [decodeRune, first_ascii a])
  by_cases b : s0 < 0xC2 ∨ 0xF5 ≤ s0
  · exact .invalid (by omega) (by simp [decodeRune, first_invalid (b := s0) ⟨by omega, b⟩])
  by_cases c : s0 < 0xE0
  · exact decodeCase_two s0 t (first_two (by omega)) (by omega)
  by_cases d : s0 < 0xF0
  · by_cases e0 : s0 = 0xE0
    · exact decodeCase_three s0 t 0x13 0xA0 0xBF (by subst e0; rfl) (by omega) rfl
        (by omega) (by omega) (by omega)
    by_cases ed : s0 = 0xED
    · exact decodeCase_three s0 t 0x23 0x80 0x9F (by subst ed; rfl) (by omega) rfl
        (by omega) (by omega) (by omega)
    exact decodeCase_three s0 t 0x03 0x80 0xBF (first_three (by omega)) (by omega) rfl
        (by omega) (by omega) (by omega)
  by_cases f0 : s0 = 0xF0
  · exact decodeCase_four s0 t 0x34 0x90 0xBF (by subst f0; rfl) (by omega) rfl
      (by omega) (by omega) (by omega)
  by_cases f4 : s0 = 0xF4
  · exact decodeCase_four s0 t 0x44 0x80 0x8F (by subst f4; rfl) (by omega) rfl
      (by omega) (by omega) (by omega)
  exact decodeCase_four s0 t 0x04 0x80 0xBF (first_four (by omega)) (by omega) rfl
      (by omega) (by omega) (by omega)

/-- Encoding the rune decoded from a valid encoding gives back the bytes it was decoded
from. -/
theorem encodeRune_decodeRune (s0 : Nat) (t : GoString)
    (h : ¬((decodeRune (s0 :: t)).1 = RuneError ∧ (decodeRune (s0 :: t)).2 = 1)) :
    encodeRune (decodeRune (s0 :: t)).1 = (s0 :: t).take (decodeRune (s0 :: t)).2 := by
  rcases decodeCase s0 t with ⟨a, hd⟩ | ⟨a, hd⟩ | ⟨s1, t1, ht, h0, h1, hd⟩ |
    ⟨s1, s2, t2, ht, h0, h1, h2, hd⟩ | ⟨s1, s2, s3, t3, ht, h0, h1, h2, h3, hd⟩
  · rw [hd]; simp [encodeRune]; omega
  · rw [hd] at h; simp at h
  · subst ht; rw [hd]
    simp only [encodeRune, List.take_succ_cons, List.take_zero]
    split_ifs
    all_goals first | omega | (simp; omega)
  · subst ht; rw [hd]
    simp only [encodeRune, List.take_succ_cons, List.take_zero]
    split_ifs
    all_goals first | omega | (simp; omega)
  · subst ht; rw [hd]
    simp only [encodeRune, List.take_succ_cons, List.take_zero]
    split_ifs
    all_goals first | omega | (simp; omega)

/-- The function `decodeRune` reads only the bytes of the rune it returns. -/
theorem decodeRune_take_append (s0 : Nat) (t x : GoString)
    (h : ¬((decodeRune (s0 :: t)).1 = RuneError ∧ (decodeRune (s0 :: t)).2 = 1)) :
    decodeRune ((s0 :: t).take (decodeRune (s0 :: t)).2 ++ x) = decodeRune (s0 :: t) := by
  rcases decodeCase s0 t with ⟨a, hd⟩ | ⟨a, hd⟩ | ⟨s1, t1, ht, h0, h1, hd⟩ |
    ⟨s1, s2, t2, ht, h0, h1, h2, hd⟩ | ⟨s1, s2, s3, t3, ht, h0, h1, h2, h3, hd⟩
  · rw [hd t]; simp [hd]
  · rw [hd] at h; simp at h
  · subst ht; rw [hd t1]; simp [hd]
  · subst ht; rw [hd t2]; simp [hd]
  · subst ht; rw [hd t3]; simp [hd]

/-- A decoded rune is at least one byte wide, and no wider than the string. -/
theorem decodeRune_width (s0 : Nat) (t : GoString) :
    1 ≤ (decodeRune (s0 :: t)).2 ∧ (decodeRune (s0 :: t)).2 ≤ (s0 :: t).length := by
  rcases decodeCase s0 t with ⟨a, hd⟩ | ⟨a, hd⟩ | ⟨s1, t1, ht, h0, h1, hd⟩ |
    ⟨s1, s2, t2, ht, h0, h1, h2, hd⟩ | ⟨s1, s2, s3, t3, ht, h0, h1, h2, h3, hd⟩
  · rw [hd]; simp
  · rw [hd]; simp
  · subst ht; rw [hd]; simp
  · subst ht; rw [hd]; simp
  · subst ht; rw [hd]; simp

/-! ## Decoding what `appendString` wrote -/

theorem appendStringAux_skip (sb : Bool) (k : Nat) (s : GoString) :
    appendStringAux sb k s = appendStringAux sb 0 (s.drop k) := by
  induction k generalizing s with
  | zero => simp
  | succ k ih =>
    cases s with
    | nil => simp [appendStringAux]
    | cons b rest => simp [appendStringAux, ih rest]

theorem unquoteAux_skip (k : Nat) (s : GoString) :
    unquoteAux k s = unquoteAux 0 (s.drop k) := by
  induction k generalizing s with
  | zero => simp
  | succ k ih =>
    cases s with
    | nil => simp [unquoteAux]
    | cons b rest => simp [unquoteAux, ih rest]

theorem validUTF8Aux_skip (k : Nat) (s : GoString) :
    validUTF8Aux k s = validUTF8Aux 0 (s.drop k) := by
  induction k generalizing s with
  | zero => simp
  | succ k ih =>
    cases s with
    | nil => simp [validUTF8Aux]
    | cons b rest => simp [validUTF8Aux, ih rest]

theorem hexVal_hexDigit (n : Nat) (h : n < 16) : hexVal (hexDigit n) = some n := by
  unfold hexDigit hexVal
  split_ifs
  all_goals first | omega | (simp; done) | (simp; omega)

/-- The escape written for an ASCII byte is read back as that byte. -/
theorem unquoteChunk_escapeASCII (sb : Bool) (b : Nat) (x : GoString) (hb : b < 0x80) :
    unquoteChunk (escapeASCII sb b ++ x) = some ([b], (escapeASCII sb b).length) := by
  have h0 : hexVal 0x30 = some 0 := by decide
  have h4 : hexVal (hexDigit (b / 16)) = some (b / 16) := hexVal_hexDigit _ (by omega)
  have h5 : hexVal (hexDigit (b % 16)) = some (b % 16) := hexVal_hexDigit _ (by omega)
  have h6 : (b / 16) * 16 + b % 16 = b := by omega
  have h7 : isSurrogate b = false := by simp [isSurrogate]; omega
  have h8 : encodeRune b = [b] := by simp [encodeRune]; omega
  unfold escapeASCII
  by_cases c1 : b = 0x5C ∨ b = 0x22
  · rw [if_pos c1]
    rcases c1 with c1 | c1 <;> subst c1 <;> simp [unquoteChunk]
  rw [if_neg c1]
  by_cases c2 : b = 0x08 ∧ sb = true
  · rw [if_pos c2]; simp [unquoteChunk, c2.1]
  rw [if_neg c2]
  by_cases c3 : b = 0x0C ∧ sb = true
  · rw [if_pos c3]; simp [unquoteChunk, c3.1]
  rw [if_neg c3]
  by_cases c4 : b = 0x0A
  · rw [if_pos c4]; simp [unquoteChunk, c4]
  rw [if_neg c4]
  by_cases c5 : b = 0x0D
  · rw [if_pos c5]; simp [unquoteChunk, c5]
  rw [if_neg c5]
  by_cases c6 : b = 0x09
  · rw [if_pos c6]; simp [unquoteChunk, c6]
  rw [if_neg c6]
  simp [unquoteChunk, getu4, h0, h4, h5, h6, h7, h8]

/-- The chunk written for an ASCII byte is read back as that byte. -/
theorem unquoteChunk_ascii (sb : Bool) (b : Nat) (rest x : GoString) (hb : b < 0x80) :
    unquoteChunk ((encodeChunk sb (b :: rest)).1 ++ x) =
      some ([b], (encodeChunk sb (b :: rest)).1.length) := by
  by_cases hs : htmlSafeSet b = true
  · have hc : encodeChunk sb (b :: rest) = ([b], 1) := by simp [encodeChunk, hb, hs]
    rw [hc]
    simp only [htmlSafeSet, decide_eq_true_eq] at hs
    have h1 : ¬ b = 0x5C := by omega
    have h2 : ¬ (b = 0x22 ∨ b < 0x20) := by omega
    simp [unquoteChunk, h1, h2, hb]
  · have hc : encodeChunk sb (b :: rest) = (escapeASCII sb b, 1) := by
      simp [encodeChunk, hb, hs]
    rw [hc]
    exact unquoteChunk_escapeASCII sb b x hb

theorem escapeASCII_head (sb : Bool) (b : Nat) :
    ∃ t, escapeASCII sb b = 0x5C :: t := by
  unfold escapeASCII
  split_ifs
  all_goals exact ⟨_, rfl⟩

theorem decodeRune_ascii (b : Nat) (rest : GoString) (hb : b < 0x80) :
    decodeRune (b :: rest) = (b, 1) := by
  simp [decodeRune, first_ascii hb]

/-- What `encodeChunk` writes for a validly encoded rune: it passes over exactly the bytes of
the rune, what it writes does not start with a quote, and `unquoteChunk` reads it back as
those bytes. -/
theorem encodeChunk_spec (sb : Bool) (b : Nat) (rest : GoString)
    (hv : ¬((decodeRune (b :: rest)).1 = RuneError ∧ (decodeRune (b :: rest)).2 = 1)) :
    (encodeChunk sb (b :: rest)).2 = (decodeRune (b :: rest)).2 ∧
    (∃ h t, (encodeChunk sb (b :: rest)).1 = h :: t ∧ h ≠ 0x22) ∧
    ∀ x, unquoteChunk ((encodeChunk sb (b :: rest)).1 ++ x) =
      some ((b :: rest).take (encodeChunk sb (b :: rest)).2,
        (encodeChunk sb (b :: rest)).1.length) := by
  by_cases hb : b < 0x80
  · have hd := decodeRune_ascii b rest hb
    have h2 : (encodeChunk sb (b :: rest)).2 = 1 := by
      simp only [encodeChunk, hb, if_true]
      split_ifs <;> rfl
    refine ⟨by rw [h2, hd], ?_, ?_⟩
    · by_cases hs : htmlSafeSet b = true
      · refine ⟨b, [], by simp [encodeChunk, hb, hs], ?_⟩
        simp only [htmlSafeSet, decide_eq_true_eq] at hs
        omega
      · obtain ⟨t, ht⟩ := escapeASCII_head sb b
        exact ⟨0x5C, t, by simp [encodeChunk, hb, hs, ht], by decide⟩
    · intro x
      rw [unquoteChunk_ascii sb b rest x hb, h2]
      simp
  · have hw := decodeRune_width b rest
    have hed := encodeRune_decodeRune b rest hv
    by_cases hl : (decodeRune (b :: rest)).1 = 0x2028 ∨ (decodeRune (b :: rest)).1 = 0x2029
    · have hc : encodeChunk sb (b :: rest) =
          ([0x5C, 0x75, 0x32, 0x30, 0x32, hexDigit ((decodeRune (b :: rest)).1 % 16)],
            (decodeRune (b :: rest)).2) := by
        simp only [encodeChunk, hb, if_false, hv, if_pos hl]
      rw [hc]
      refine ⟨rfl, ⟨_, _, rfl, by decide⟩, ?_⟩
      intro x
      have h0 : hexVal 0x30 = some 0 := by decide
      have h2 : hexVal 0x32 = some 2 := by decide
      have h5 : hexVal (hexDigit ((decodeRune (b :: rest)).1 % 16)) =
          some ((decodeRune (b :: rest)).1 % 16) := hexVal_hexDigit _ (by omega)
      have h6 : ((2 * 16 + 0) * 16 + 2) * 16 + (decodeRune (b :: rest)).1 % 16 =
          (decodeRune (b :: rest)).1 := by omega
      have h7 : isSurrogate (decodeRune (b :: rest)).1 = false := by
        simp [isSurrogate]; omega
      simp [unquoteChunk, getu4, h0, h2, h5, h6, h7, hed]
    · have hc : encodeChunk sb (b :: rest) =
          ((b :: rest).take (decodeRune (b :: rest)).2, (decodeRune (b :: rest)).2) := by
        simp only [encodeChunk, hb, if_false, hv, if_neg hl]
      rw [hc]
      obtain ⟨n, hn⟩ : ∃ n, (decodeRune (b :: rest)).2 = n + 1 :=
        ⟨(decodeRune (b :: rest)).2 - 1, by omega⟩
      refine ⟨rfl, ⟨b, rest.take n, by simp [hn], by omega⟩, ?_⟩
      intro x
      have hda := decodeRune_take_append b rest x hv
      have h1 : ¬ b = 0x5C := by omega
      have h2 : ¬ (b = 0x22 ∨ b < 0x20) := by omega
      have hlen : ((b :: rest).take (decodeRune (b :: rest)).2).length =
          (decodeRune (b :: rest)).2 := by
        rw [List.length_take]; omega
      rw [hlen]
      rw [hn] at hda ⊢
      simp only [List.take_succ_cons, List.cons_append] at hda ⊢
      simp only [unquoteChunk, h1, h2, hb, if_false, hda]
      rw [← hn, hed, hn]
      simp

/-- Reading back what `appendString` wrote for a valid UTF-8 string gives the string and the
input after the closing quote. -/
theorem unquoteAux_appendStringAux (sb : Bool) (n : Nat) :
    ∀ s : GoString, s.length ≤ n → validUTF8Aux 0 s = true → ∀ tail : GoString,
      unquoteAux 0 (appendStringAux sb 0 s ++ 0x22 :: tail) = some (s, tail) := by
  induction n with
  | zero =>
    intro s hs _ tail
    have : s = [] := List.length_eq_zero.mp (by omega)
    subst this
    simp [appendStringAux, unquoteAux]
  | succ n ih =>
    intro s hs hv tail
    cases s with
    | nil => simp [appendStringAux, unquoteAux]
    | cons b rest =>
      simp only [validUTF8Aux] at hv
      by_cases hinv : (decodeRune (b :: rest)).1 = RuneError ∧ (decodeRune (b :: rest)).2 = 1
      · simp [hinv] at hv
      · rw [if_neg hinv, validUTF8Aux_skip] at hv
        obtain ⟨h2, ⟨h, t, hht, hq⟩, hu⟩ := encodeChunk_spec sb b rest hinv
        have hw := decodeRune_width b rest
        obtain ⟨m, hm⟩ : ∃ m, (decodeRune (b :: rest)).2 = m + 1 :=
          ⟨(decodeRune (b :: rest)).2 - 1, by omega⟩
        have hlen : (rest.drop m).length ≤ n := by
          simp only [List.length_drop, List.length_cons] at hs ⊢; omega
        rw [hm] at hv
        have hrec := ih (rest.drop m) hlen (by simpa using hv) tail
        have hu1 := hu (appendStringAux sb 0 (rest.drop m) ++ 0x22 :: tail)
        simp only [appendStringAux]
        rw [appendStringAux_skip, h2, hm]
        rw [h2, hm] at hu1
        rw [hht] at hu1 ⊢
        simp only [Nat.add_sub_cancel, List.cons_append, List.append_assoc] at hu1 ⊢
        simp only [unquoteAux, if_neg hq, hu1]
        rw [unquoteAux_skip]
        simp only [List.length_cons, Nat.add_sub_cancel]
        rw [List.drop_left, hrec]
        simp

/-- A quoted JSON string written by `appendString` for a valid UTF-8 string decodes to that
string. -/
theorem decodeString_appendString (sb : Bool) (s tail : GoString)
    (hv : validUTF8 s = true) :
    decodeString (appendString sb s ++ tail) = some (s, tail) := by
  have h := unquoteAux_appendStringAux sb s.length s (Nat.le_refl _) hv tail
  simpa [decodeString, appendString] using h

/-! ## Decoding what `json.Marshal` wrote for a map -/

theorem mem_insertByKey (e : GoString × GoString) (l : List (GoString × GoString))
    (x : GoString × GoString) : x ∈ insertByKey e l ↔ x = e ∨ x ∈ l := by
  induction l with
  | nil => simp [insertByKey]
  | cons f fs ih =>
    unfold insertByKey
    split_ifs
    · simp only [List.mem_cons, ih]; tauto
    · simp

theorem mem_sortByKey (l : List (GoString × GoString)) (x : GoString × GoString) :
    x ∈ sortByKey l ↔ x ∈ l := by
  induction l with
  | nil => simp [sortByKey]
  | cons e es ih => simp [sortByKey, mem_insertByKey, ih]

theorem length_encodeMembers (sb : Bool) (es : List (GoString × GoString)) :
    es.length ≤ (encodeMembers sb es).length + 1 := by
  induction es with
  | nil => simp
  | cons e es ih =>
    cases es with
    | nil => simp
    | cons f fs =>
      simp only [encodeMembers, List.length_append, List.length_cons] at ih ⊢
      omega

/-- The members `json.Marshal` wrote, followed by the closing brace, decode to the entries
they were written from, given enough fuel. -/
theorem decodeMembers_encodeMembers (sb : Bool) (es : List (GoString × GoString)) :
    es ≠ [] → (∀ e ∈ es, validUTF8 e.1 = true ∧ validUTF8 e.2 = true) →
    ∀ fuel, es.length ≤ fuel → decodeMembers fuel (encodeMembers sb es ++ [0x7D]) = some es := by
  induction es with
  | nil => intro h; exact absurd rfl h
  | cons e es ih =>
    intro _ hv fuel hf
    obtain ⟨fuel, rfl⟩ : ∃ k, fuel = k + 1 := ⟨fuel - 1, by simp at hf; omega⟩
    have he := hv e (List.mem_cons_self _ _)
    cases es with
    | nil =>
      simp only [encodeMembers, List.append_assoc, List.cons_append]
      simp [decodeMembers, decodeString_appendString sb e.1 _ he.1,
        decodeString_appendString sb e.2 _ he.2]
    | cons f fs =>
      have hrec := ih (by simp) (fun x hx => hv x (List.mem_cons_of_mem _ hx)) fuel
        (by simp at hf ⊢; omega)
      simp only [encodeMembers, List.append_assoc, List.cons_append] at hrec ⊢
      simp [decodeMembers, decodeString_appendString sb e.1 _ he.1,
        decodeString_appendString sb e.2 _ he.2, hrec]

/-- Decoding the object `json.Marshal` wrote for a map with valid UTF-8 keys and values gives
the entries of the map in key order. -/
theorem jsonDecodeObject_jsonMarshalMap (sb : Bool) (m : List (GoString × GoString))
    (hv : ∀ e ∈ m, validUTF8 e.1 = true ∧ validUTF8 e.2 = true) :
    jsonDecodeObject (jsonMarshalMap sb m) = some (sortByKey m) := by
  have hv2 : ∀ e ∈ sortByKey m, validUTF8 e.1 = true ∧ validUTF8 e.2 = true :=
    fun e he => hv e ((mem_sortByKey m e).mp he)
  unfold jsonMarshalMap
  generalize sortByKey m = es at hv2 ⊢
  cases es with
  | nil => simp [jsonDecodeObject, encodeMembers]
  | cons e es =>
    have hne : encodeMembers sb (e :: es) ++ [0x7D] ≠ [0x7D] := by
      cases es <;> simp [encodeMembers, appendString]
    have hlen := length_encodeMembers sb (e :: es)
    simp only [jsonDecodeObject, if_neg hne]
    simp only [ne_eq, not_true_eq_false, if_false]
    apply decodeMembers_encodeMembers sb (e :: es) (by simp) hv2
    simp only [List.length_append, List.length_cons, List.length_nil] at hlen ⊢
    omega

/-! ## The invariant of `Run` -/

theorem inv_init (t0 : Nat) : Inv (State.init t0) := by
  apply Inv.mk
  apply InvW.mk
  all_goals simp [State.init, Tomb.fresh, OuterPc.active, WatcherPc.active,
    MainPc.afterCancel, MainPc.afterWake, MainPc.timerSet, MainPc.afterTimeout, OuterPc.afterServe, expectedKillLog]

theorem ended_false {s : State} (h : ¬ s.ended = true) :
    s.panicked = false ∧ s.main ≠ .returned ∧ s.main ≠ .exited := by
  simp only [State.ended, Bool.or_eq_true, beq_iff_eq, not_or] at h
  exact ⟨by simpa using h.1.1, h.1.2, h.2⟩

theorem inv_mainGo (s s1 : State) (h : Inv s) (hs : Run.step s .mainGo = some s1) : Inv s1 := by
  have hI := h
  obtain ⟨⟨h1, h2, h3, h4, h5, h6, h7, h8, h9, h10, h11, h12, h13, h14, h15, h16, h17, h18,
    h21, h22, hto, h23, h24, h25, h26, h27⟩, h19, h20⟩ := h
  simp only [Run.step] at hs
  split_ifs at hs with c1 c2
  have ho := h3.mp c2
  have hd : s.tomb.dead = false := by
    cases hdd : s.tomb.dead
    · rfl
    · have := (h5.mp hdd).1; rw [ho] at this; cases this
  simp only [Tomb.Go, hd] at hs
  cases hs
  have hw := h4.mpr (Or.inl ho)
  apply Inv.mk
  apply InvW.mk
  all_goals first | assumption | skip
  all_goals clear h15 h27
  all_goals simp_all [OuterPc.active, WatcherPc.active, MainPc.afterCancel, MainPc.afterWake,
    MainPc.timerSet, MainPc.afterTimeout, OuterPc.afterServe, OuterPc.afterCheck, expectedKillLog]
theorem inv_mainSelect (s s1 : State) (h : Inv s) (hs : Run.step s .mainSelect = some s1) :
    Inv s1 := by
  obtain ⟨⟨h1, h2, h3, h4, h5, h6, h7, h8, h9, h10, h11, h12, h13, h14, h15, h16, h17, h18,
    h21, h22, hto, h23, h24, h25, h26, h27⟩, h19, h20⟩ := h
  simp only [Run.step] at hs
  split_ifs at hs with c1 c2 c3
  · cases hs
    apply Inv.mk
    apply InvW.mk
    all_goals first | assumption | skip
    all_goals clear h15 h27
    all_goals simp_all [OuterPc.active, WatcherPc.active, MainPc.afterCancel, MainPc.afterWake,
      MainPc.timerSet, MainPc.afterTimeout, OuterPc.afterServe, OuterPc.afterCheck, expectedKillLog]
  · cases hs
    apply Inv.mk
    apply InvW.mk
    all_goals first | assumption | skip
    all_goals clear h15 h27
    all_goals simp_all [OuterPc.active, WatcherPc.active, MainPc.afterCancel, MainPc.afterWake,
      MainPc.timerSet, MainPc.afterTimeout, OuterPc.afterServe, OuterPc.afterCheck, expectedKillLog]

theorem inv_signal (s s1 : State) (h : Inv s) (hs : Run.step s .signal = some s1) : Inv s1 := by
  obtain ⟨⟨h1, h2, h3, h4, h5, h6, h7, h8, h9, h10, h11, h12, h13, h14, h15, h16, h17, h18,
    h21, h22, hto, h23, h24, h25, h26, h27⟩, h19, h20⟩ := h
  simp only [Run.step] at hs
  split_ifs at hs with c1
  split at hs
  · cases hs
    apply Inv.mk
    apply InvW.mk
    all_goals first | assumption | skip
    all_goals clear h15 h27
    all_goals simp_all [OuterPc.active, WatcherPc.active, MainPc.afterCancel, MainPc.afterWake,
      MainPc.timerSet, MainPc.afterTimeout, OuterPc.afterServe, OuterPc.afterCheck, expectedKillLog]
  all_goals cases hs
  all_goals
    apply Inv.mk
    apply InvW.mk
    all_goals first | assumption | skip
    intro hw; have := h18 hw; simp only; omega

theorem inv_mainCancel (s s1 : State) (h : Inv s) (hs : Run.step s .mainCancel = some s1) :
    Inv s1 := by
  obtain ⟨⟨h1, h2, h3, h4, h5, h6, h7, h8, h9, h10, h11, h12, h13, h14, h15, h16, h17, h18,
    h21, h22, hto, h23, h24, h25, h26, h27⟩, h19, h20⟩ := h
  simp only [Run.step] at hs
  split_ifs at hs with c1 c2
  cases hs
  apply Inv.mk
  apply InvW.mk
  all_goals first | assumption | skip
  all_goals clear h15 h27
  all_goals simp_all [OuterPc.active, WatcherPc.active, MainPc.afterCancel, MainPc.afterWake,
    MainPc.timerSet, MainPc.afterTimeout, OuterPc.afterServe, OuterPc.afterCheck, expectedKillLog]

theorem inv_mainWait (s s1 : State) (h : Inv s) (hs : Run.step s .mainWait = some s1) :
    Inv s1 := by
  obtain ⟨⟨h1, h2, h3, h4, h5, h6, h7, h8, h9, h10, h11, h12, h13, h14, h15, h16, h17, h18,
    h21, h22, hto, h23, h24, h25, h26, h27⟩, h19, h20⟩ := h
  simp only [Run.step] at hs
  split_ifs at hs with c1 c2 c3
  · cases hs
    apply Inv.mk
    apply InvW.mk
    all_goals first | assumption | skip
    all_goals clear h15 h27
    all_goals simp_all [OuterPc.active, WatcherPc.active, MainPc.afterCancel, MainPc.afterWake,
      MainPc.timerSet, MainPc.afterTimeout, OuterPc.afterServe, OuterPc.afterCheck, expectedKillLog]
  · cases hs
    apply Inv.mk
    apply InvW.mk
    all_goals first | assumption | skip
    all_goals clear h15 h27
    all_goals simp_all [OuterPc.active, WatcherPc.active, MainPc.afterCancel, MainPc.afterWake,
      MainPc.timerSet, MainPc.afterTimeout, OuterPc.afterServe, OuterPc.afterCheck, expectedKillLog]

theorem inv_timerFire (s s1 : State) (h : Inv s) (hs : Run.step s .timerFire = some s1) :
    Inv s1 := by
  obtain ⟨⟨h1, h2, h3, h4, h5, h6, h7, h8, h9, h10, h11, h12, h13, h14, h15, h16, h17, h18,
    h21, h22, hto, h23, h24, h25, h26, h27⟩, h19, h20⟩ := h
  simp only [Run.step] at hs
  split_ifs at hs with c1
  split at hs
  · rename_i t0 hm ht
    split_ifs at hs with c2
    cases hs
    have hdd := h20 hm
    apply Inv.mk
    apply InvW.mk
    all_goals first | assumption | skip
    pick_goal 7
    · intro t1 x ht1 hx
      simp only at ht1 hx
      rw [ht] at ht1
      cases ht1
      cases hx
      exact ⟨hdd, c2, le_refl _⟩
    all_goals clear h15 h27 h23 h22
    all_goals simp_all [OuterPc.active, WatcherPc.active, MainPc.afterCancel, MainPc.afterWake,
      MainPc.timerSet, MainPc.afterTimeout, OuterPc.afterServe, OuterPc.afterCheck,
      expectedKillLog]
  · cases hs

theorem inv_mainExit (s s1 : State) (h : Inv s) (hs : Run.step s .mainExit = some s1) :
    Inv s1 := by
  obtain ⟨⟨h1, h2, h3, h4, h5, h6, h7, h8, h9, h10, h11, h12, h13, h14, h15, h16, h17, h18,
    h21, h22, hto, h23, h24, h25, h26, h27⟩, h19, h20⟩ := h
  simp only [Run.step] at hs
  split_ifs at hs with c1 c2
  cases hs
  apply Inv.mk
  apply InvW.mk
  all_goals first | assumption | skip
  all_goals clear h15 h27
  all_goals simp_all [OuterPc.active, WatcherPc.active, MainPc.afterCancel, MainPc.afterWake,
    MainPc.timerSet, MainPc.afterTimeout, OuterPc.afterServe, OuterPc.afterCheck,
    expectedKillLog]

theorem inv_mainReturn (s s1 : State) (h : Inv s) (hs : Run.step s .mainReturn = some s1) :
    Inv s1 := by
  obtain ⟨⟨h1, h2, h3, h4, h5, h6, h7, h8, h9, h10, h11, h12, h13, h14, h15, h16, h17, h18,
    h21, h22, hto, h23, h24, h25, h26, h27⟩, h19, h20⟩ := h
  simp only [Run.step] at hs
  split_ifs at hs with c1 c2
  cases hs
  apply Inv.mk
  apply InvW.mk
  all_goals first | assumption | skip
  all_goals clear h15 h27
  all_goals simp_all [OuterPc.active, WatcherPc.active, MainPc.afterCancel, MainPc.afterWake,
    MainPc.timerSet, MainPc.afterTimeout, OuterPc.afterServe, OuterPc.afterCheck,
    expectedKillLog]

theorem inv_tick (s s1 : State) (d : Nat) (h : Inv s) (hs : Run.step s (.tick d) = some s1) :
    Inv s1 := by
  obtain ⟨⟨h1, h2, h3, h4, h5, h6, h7, h8, h9, h10, h11, h12, h13, h14, h15, h16, h17, h18,
    h21, h22, hto, h23, h24, h25, h26, h27⟩, h19, h20⟩ := h
  simp only [Run.step] at hs
  split_ifs at hs with c1 c2
  cases hs
  apply Inv.mk
  apply InvW.mk
  all_goals first | assumption | skip
  · intro t1 ht1
    have := h22 t1 ht1
    simp only
    omega
  · intro t1 x ht1 hx
    have := h23 t1 x ht1 hx
    exact ⟨this.1, this.2.1, by simp only; omega⟩

theorem inv_outerGo (s s1 : State) (h : Inv s) (hs : Run.step s .outerGo = some s1) : Inv s1 := by
  obtain ⟨⟨h1, h2, h3, h4, h5, h6, h7, h8, h9, h10, h11, h12, h13, h14, h15, h16, h17, h18,
    h21, h22, hto, h23, h24, h25, h26, h27⟩, h19, h20⟩ := h
  simp only [Run.step] at hs
  split_ifs at hs with c1 c2
  have hd : s.tomb.dead = false := by
    cases hdd : s.tomb.dead
    · rfl
    · have := (h5.mp hdd).1; rw [c2] at this; cases this
  have hw := h4.mpr (Or.inr c2)
  simp only [Tomb.Go, hd] at hs
  cases hs
  apply Inv.mk
  apply InvW.mk
  all_goals first | assumption | skip
  all_goals clear h15 h27
  all_goals simp_all [OuterPc.active, WatcherPc.active, MainPc.afterCancel, MainPc.afterWake,
    MainPc.timerSet, MainPc.afterTimeout, OuterPc.afterServe, OuterPc.afterCheck, expectedKillLog]

theorem inv_serveReturn (s s1 : State) (err : Option GoError) (h : Inv s)
    (hs : Run.step s (.serveReturn err) = some s1) : Inv s1 := by
  obtain ⟨⟨h1, h2, h3, h4, h5, h6, h7, h8, h9, h10, h11, h12, h13, h14, h15, h16, h17, h18,
    h21, h22, hto, h23, h24, h25, h26, h27⟩, h19, h20⟩ := h
  simp only [Run.step] at hs
  split_ifs at hs with c1 c2
  cases hs
  apply Inv.mk
  apply InvW.mk
  all_goals first | assumption | skip
  all_goals clear h15 h27
  all_goals simp_all [OuterPc.active, WatcherPc.active, MainPc.afterCancel, MainPc.afterWake,
    MainPc.timerSet, MainPc.afterTimeout, OuterPc.afterServe, OuterPc.afterCheck, expectedKillLog]

theorem inv_watcherDone (s s1 : State) (h : Inv s) (hs : Run.step s .watcherDone = some s1) :
    Inv s1 := by
  obtain ⟨⟨h1, h2, h3, h4, h5, h6, h7, h8, h9, h10, h11, h12, h13, h14, h15, h16, h17, h18,
    h21, h22, hto, h23, h24, h25, h26, h27⟩, h19, h20⟩ := h
  simp only [Run.step] at hs
  split_ifs at hs with c1 c2
  cases hs
  apply Inv.mk
  apply InvW.mk
  all_goals first | assumption | skip
  all_goals clear h15 h27
  all_goals simp_all [OuterPc.active, WatcherPc.active, MainPc.afterCancel, MainPc.afterWake,
    MainPc.timerSet, MainPc.afterTimeout, OuterPc.afterServe, OuterPc.afterCheck, expectedKillLog]

theorem inv_watcherShutdown (s s1 : State) (h : Inv s)
    (hs : Run.step s .watcherShutdown = some s1) : Inv s1 := by
  obtain ⟨⟨h1, h2, h3, h4, h5, h6, h7, h8, h9, h10, h11, h12, h13, h14, h15, h16, h17, h18,
    h21, h22, hto, h23, h24, h25, h26, h27⟩, h19, h20⟩ := h
  simp only [Run.step] at hs
  split_ifs at hs with c1 c2
  cases hs
  apply Inv.mk
  apply InvW.mk
  all_goals first | assumption | skip
  all_goals clear h15 h27
  all_goals simp_all [OuterPc.active, WatcherPc.active, MainPc.afterCancel, MainPc.afterWake,
    MainPc.timerSet, MainPc.afterTimeout, OuterPc.afterServe, OuterPc.afterCheck, expectedKillLog]

theorem runExit_none (t : Tomb) :
    (t.runExit none).alive = t.alive - 1 ∧
    (t.runExit none).dead = (t.dead || decide (t.alive = 1)) ∧
    (t.runExit none).dying = (t.dying || decide (t.alive = 1 ∧ t.reason = .stillAlive)) ∧
    (t.runExit none).reason =
      (if t.alive = 1 ∧ t.reason = .stillAlive then Reason.nil else t.reason) := by
  obtain ⟨alive, dying, dead, reason⟩ := t
  by_cases ha : alive = 1
  · subst ha
    cases reason <;> simp [Tomb.runExit, Tomb.kill, Reason.ofArg]
  · have h0 : ¬ (alive - 1 = 0) := by omega
    simp [Tomb.runExit, ha, h0]

theorem kill_some (t : Tomb) (m : GoString) :
    (t.kill (some m)).alive = t.alive ∧ (t.kill (some m)).dead = t.dead ∧
    (t.kill (some m)).dying = (t.dying || decide (t.reason = .stillAlive)) ∧
    (t.kill (some m)).reason =
      (if t.reason = .stillAlive ∨ t.reason = .nil then Reason.err m else t.reason) := by
  obtain ⟨alive, dying, dead, reason⟩ := t
  cases reason <;> simp [Tomb.kill, Reason.ofArg]

/-- Waking the goroutine of `Run` after a worker changed the tomb restores the invariant. -/
theorem inv_notifyMain (s : State) (h : InvW s) : Inv (notifyMain s) := by
  have hI := h
  obtain ⟨h1, h2, h3, h4, h5, h6, h7, h8, h9, h10, h11, h12, h13, h14, h15, h16, h17, h18,
    h21, h22, hto, h23, h24, h25, h26, h27⟩ := h
  cases hm : s.main
  case awaitTermination =>
    cases hd : s.tomb.dying
    · have e : notifyMain s = s := by simp [notifyMain, hm, hd]
      rw [e]
      exact ⟨hI, fun _ => hd, fun h => absurd (hm.symm.trans h) (by decide)⟩
    · have e : notifyMain s = { s with main := .woken, wakeReason := some .tombDying } := by
        simp [notifyMain, hm, hd]
      rw [e]
      apply Inv.mk
      apply InvW.mk
      all_goals first | assumption | skip
      all_goals clear h15 h27 h23
      all_goals simp_all [MainPc.afterCancel, MainPc.afterWake, MainPc.timerSet,
        MainPc.afterTimeout]
  case awaitDead =>
    cases hd : s.tomb.dead
    · have e : notifyMain s = s := by simp [notifyMain, hm, hd]
      rw [e]
      exact ⟨hI, fun h => absurd (hm.symm.trans h) (by decide), fun _ => hd⟩
    · have e : notifyMain s = { s with main := .goodbye } := by
        simp [notifyMain, hm, hd]
      rw [e]
      apply Inv.mk
      apply InvW.mk
      all_goals first | assumption | skip
      all_goals clear h15 h27 h23
      all_goals simp_all [MainPc.afterCancel, MainPc.afterWake, MainPc.timerSet,
        MainPc.afterTimeout]
  all_goals
    have e : notifyMain s = s := by simp [notifyMain, hm]
    rw [e]
    exact ⟨hI, fun h => absurd (hm.symm.trans h) (by decide),
      fun h => absurd (hm.symm.trans h) (by decide)⟩

theorem inv_outerReturn (s s1 : State) (h : Inv s) (hs : Run.step s .outerReturn = some s1) :
    Inv s1 := by
  obtain ⟨⟨h1, h2, h3, h4, h5, h6, h7, h8, h9, h10, h11, h12, h13, h14, h15, h16, h17, h18,
    h21, h22, hto, h23, h24, h25, h26, h27⟩, h19, h20⟩ := h
  simp only [Run.step] at hs
  split_ifs at hs with c1 c2
  cases hs
  apply inv_notifyMain
  obtain ⟨r1, r2, r3, r4⟩ := runExit_none s.tomb
  have hw : s.watcher ≠ .notStarted := by
    intro hw; rcases h4.mp hw with h | h <;> rw [c2] at h <;> cases h
  have hms : s.main ≠ .start := by
    intro hm; have := h3.mp hm; rw [c2] at this; cases this
  have hmr : s.main ≠ .returned := (ended_false c1).2.1
  have hme : s.main ≠ .exited := (ended_false c1).2.2
  have hdd : s.tomb.dead = false := by
    cases hdd : s.tomb.dead
    · rfl
    · have := (h5.mp hdd).1; rw [c2] at this; cases this
  have ha : s.tomb.alive = 1 ↔ s.watcher = .done := by
    rw [h2, c2]
    cases hwp : s.watcher <;> simp [OuterPc.active, WatcherPc.active]
    exact hw hwp
  apply InvW.mk
  all_goals first | assumption | skip
  all_goals simp only [r1, r2, r3, r4, ha, hdd]
  all_goals clear h8 h9 h10 h11 h12 h16 h18 h21 h22 h23 h24 r1 r2 r3 r4 h19 h20 h3 h4 h5 c1
  · rw [h2, c2]; simp [OuterPc.active]
  · simp [hms]
  · simp [hw]
  · simp
  · by_cases hwd : s.watcher = .done <;> by_cases hr : s.tomb.reason = .stillAlive <;>
      simp [hwd, hr, h6]
  · by_cases hwd : s.watcher = .done <;> by_cases hr : s.tomb.reason = .stillAlive <;>
      simp [hwd, hr, h6]
  · rw [h13, c2]; rfl
  · rw [h14, c2]; rfl
  · intro msg hk
    have := h15 msg hk
    simp [this]
  · intro hwk
    simp [h17 hwk]
  · intro hm
    have := h25 hm
    rw [hdd] at this; cases this
  · by_cases hwd : s.watcher = .done
    · simp [hwd]
    · simpa [hwd, hdd] using h26
  · intro msg hm
    split_ifs at hm
    exact h27 msg hm

theorem inv_watcherReturn (s s1 : State) (h : Inv s)
    (hs : Run.step s .watcherReturn = some s1) : Inv s1 := by
  obtain ⟨⟨h1, h2, h3, h4, h5, h6, h7, h8, h9, h10, h11, h12, h13, h14, h15, h16, h17, h18,
    h21, h22, hto, h23, h24, h25, h26, h27⟩, h19, h20⟩ := h
  simp only [Run.step] at hs
  split_ifs at hs with c1 c2
  cases hs
  apply inv_notifyMain
  obtain ⟨r1, r2, r3, r4⟩ := runExit_none s.tomb
  have hon : s.outer ≠ .notStarted ∧ s.outer ≠ .started := by
    constructor <;> intro ho
    · have := h4.mpr (Or.inl ho); rw [c2] at this; cases this
    · have := h4.mpr (Or.inr ho); rw [c2] at this; cases this
  have hmr : s.main ≠ .returned := (ended_false c1).2.1
  have hme : s.main ≠ .exited := (ended_false c1).2.2
  have hdd : s.tomb.dead = false := by
    cases hdd : s.tomb.dead
    · rfl
    · have := (h5.mp hdd).2; rw [c2] at this; cases this
  have ha : s.tomb.alive = 1 ↔ s.outer = .done := by
    rw [h2, c2]
    cases hop : s.outer <;> simp [OuterPc.active, WatcherPc.active]
    · exact hon.1 hop
  have hctx := h10 (Or.inr (Or.inl c2))
  apply InvW.mk
  all_goals first | assumption | skip
  all_goals simp only [r1, r2, r3, r4, ha, hdd]
  all_goals clear h8 h9 h13 h14 h16 h18 h21 h22 h23 h24 r1 r2 r3 r4 h19 h20 h3 h5 c1
  · rw [h2, c2]; simp [WatcherPc.active]
  · simp [hon.1, hon.2]
  · simp
  · by_cases hwd : s.outer = .done <;> by_cases hr : s.tomb.reason = .stillAlive <;>
      simp [hwd, hr, h6]
  · by_cases hwd : s.outer = .done <;> by_cases hr : s.tomb.reason = .stillAlive <;>
      simp [hwd, hr, h6]
  · intro _; exact hctx
  · rw [h11, c2]; simp
  · rw [h12, c2]; simp
  · intro msg hk
    have := h15 msg hk
    simp [this]
  · intro hwk
    simp [h17 hwk]
  · intro hm
    have := h25 hm
    rw [hdd] at this; cases this
  · by_cases hwd : s.outer = .done
    · simp [hwd]
    · simpa [hwd, hdd] using h26
  · intro msg hm
    split_ifs at hm
    exact h27 msg hm

theorem inv_outerCheck (s s1 : State) (h : Inv s) (hs : Run.step s .outerCheck = some s1) :
    Inv s1 := by
  obtain ⟨⟨h1, h2, h3, h4, h5, h6, h7, h8, h9, h10, h11, h12, h13, h14, h15, h16, h17, h18,
    h21, h22, hto, h23, h24, h25, h26, h27⟩, h19, h20⟩ := h
  simp only [Run.step] at hs
  split_ifs at hs with c1
  split at hs
  · rename_i err c2 hl
    have hmr : s.main ≠ .returned := (ended_false c1).2.1
    have hme : s.main ≠ .exited := (ended_false c1).2.2
    have hdd : s.tomb.dead = false := by
      cases hdd : s.tomb.dead
      · rfl
      · have := (h5.mp hdd).1; rw [c2] at this; cases this
    have hk0 : s.killLog = [] := by rw [h14, c2, hl]; simp [expectedKillLog, OuterPc.afterCheck]
    have hdy : s.tomb.dying = false := by
      cases hdy : s.tomb.dying
      · rfl
      · rcases h26 hdy with h | h
        · exact absurd hk0 h
        · rw [hdd] at h; cases h
    have hr : s.tomb.reason = .stillAlive := by
      by_contra hr
      have := h6.mpr hr
      rw [hdy] at this; cases this
    split_ifs at hs with c3
    · cases hs
      apply inv_notifyMain
      obtain ⟨r1, r2, r3, r4⟩ := kill_some s.tomb (servingError err)
      apply InvW.mk
      all_goals first | assumption | skip
      all_goals simp only [r1, r2, r3, r4, hdd, hr, hk0]
      all_goals clear h8 h9 h10 h11 h12 h16 h18 h21 h22 h23 h24 r1 r2 r3 r4 h19 h20 c1
      · rw [h2, c2]; simp [OuterPc.active]
      · rw [h3, c2]; simp
      · rw [h4, c2]; simp
      · simp [c2, hdd] at h5 ⊢
      · simp
      · simp
      · rw [h13, c2]; rfl
      · simp [expectedKillLog, OuterPc.afterCheck, hl, c3]
      · intro msg hm; simpa using hm
      · simp
      · intro hm
        have := h25 hm
        rw [hdd] at this; cases this
      · simp
      · intro msg hm; simpa using hm
    · cases hs
      have e : err = some GoError.ErrServerClosed := by simpa using c3
      apply Inv.mk
      apply InvW.mk
      all_goals first | assumption | skip
      · rw [h2, c2]; simp [OuterPc.active]
      · rw [h3, c2]; simp
      · rw [h4, c2]; simp
      · simp [c2, hdd] at h5 ⊢
      · rw [h13, c2]; rfl
      · simp [expectedKillLog, OuterPc.afterCheck, hl, e, hk0]
  · cases hs

/-- Every step of an execution keeps the invariant. -/
theorem inv_step (s s1 : State) (e : Event) (h : Inv s) (hs : Run.step s e = some s1) :
    Inv s1 := by
  cases e with
  | mainGo => exact inv_mainGo s s1 h hs
  | mainSelect => exact inv_mainSelect s s1 h hs
  | signal => exact inv_signal s s1 h hs
  | mainCancel => exact inv_mainCancel s s1 h hs
  | mainWait => exact inv_mainWait s s1 h hs
  | timerFire => exact inv_timerFire s s1 h hs
  | mainExit => exact inv_mainExit s s1 h hs
  | mainReturn => exact inv_mainReturn s s1 h hs
  | tick d => exact inv_tick s s1 d h hs
  | outerGo => exact inv_outerGo s s1 h hs
  | serveReturn err => exact inv_serveReturn s s1 err h hs
  | outerCheck => exact inv_outerCheck s s1 h hs
  | outerReturn => exact inv_outerReturn s s1 h hs
  | watcherDone => exact inv_watcherDone s s1 h hs
  | watcherShutdown => exact inv_watcherShutdown s s1 h hs
  | watcherReturn => exact inv_watcherReturn s s1 h hs

theorem inv_run (es : List Event) :
    ∀ (s s1 : State), Inv s → Run.exec s es = some s1 → Inv s1 := by
  induction es with
  | nil =>
    intro s s1 h hr
    simp only [Run.exec, Option.some.injEq] at hr
    exact hr ▸ h
  | cons e es ih =>
    intro s s1 h hr
    simp only [Run.exec] at hr
    cases hst : Run.step s e with
    | none => rw [hst] at hr; cases hr
    | some s2 =>
      rw [hst] at hr
      exact ih s2 s1 (inv_step s s2 e h hst) hr

/-- The invariant holds in every reachable state. -/
theorem inv_reachable (s : State) (h : Reachable s) : Inv s := by
  obtain ⟨t0, es, hr⟩ := h
  exact inv_run es _ s (inv_init t0) hr

theorem reachable_init (t0 : Nat) : Reachable (State.init t0) := ⟨t0, [], rfl⟩

/-! ## The handlers -/

theorem sortByKey_jolokia_seastat (v ver : GoString) :
    sortByKey [(lit "jolokia", v), (lit "seastat", ver)] =
      [(lit "jolokia", v), (lit "seastat", ver)] := by
  have h : strLt (lit "seastat") (lit "jolokia") = false := by decide
  simp [sortByKey, insertByKey, h]

theorem appendString_keys (sb : Bool) :
    appendString sb (lit "jolokia") = lit "\x22jolokia\x22" ∧
    appendString sb (lit "seastat") = lit "\x22seastat\x22" ∧
    appendString sb (lit "error") = lit "\x22error\x22" := by
  cases sb <;> decide

theorem validUTF8_keys :
    validUTF8 (lit "jolokia") = true ∧ validUTF8 (lit "seastat") = true ∧
    validUTF8 (lit "error") = true := by
  decide

/-- The body `json.Marshal` writes for the version map. -/
theorem jsonMarshalMap_versions (sb : Bool) (v ver : GoString) :
    jsonMarshalMap sb [(lit "jolokia", v), (lit "seastat", ver)] =
      lit "\x7b\x22jolokia\x22:" ++ appendString sb v ++ lit ",\x22seastat\x22:"
        ++ appendString sb ver ++ lit "\x7d" := by
  have h1 : lit "\x7b\x22jolokia\x22:" = 0x7B :: (lit "\x22jolokia\x22" ++ [0x3A]) := by decide
  have h2 : lit ",\x22seastat\x22:" = 0x2C :: (lit "\x22seastat\x22" ++ [0x3A]) := by decide
  have h3 : lit "\x7d" = [0x7D] := by decide
  obtain ⟨k1, k2, _⟩ := appendString_keys sb
  rw [jsonMarshalMap, sortByKey_jolokia_seastat, h1, h2, h3]
  simp [encodeMembers, k1, k2]

/-- The body `json.Marshal` writes for the error map. -/
theorem jsonMarshalMap_error (sb : Bool) (msg : GoString) :
    jsonMarshalMap sb [(lit "error", msg)] =
      lit "\x7b\x22error\x22:" ++ appendString sb msg ++ lit "\x7d" := by
  have h1 : lit "\x7b\x22error\x22:" = 0x7B :: (lit "\x22error\x22" ++ [0x3A]) := by decide
  have h3 : lit "\x7d" = [0x7D] := by decide
  obtain ⟨_, _, k3⟩ := appendString_keys sb
  rw [jsonMarshalMap, h1, h3]
  simp [sortByKey, insertByKey, encodeMembers, k3]

/-- C6. For every request, `handleRoot` calls `WriteHeader` once with 200 and `Write` once; the
status sent is 200 and the body is the banner text followed by `flags.Version`,
`" (Commit: "`, `flags.GitCommitHash` and `")"`. The body contains both strings verbatim, and
the response is the same for every request: the handler reads nothing but the two flags. -/
theorem handleRoot_response (flags : Flags) (r : Request) :
    (handleRoot flags ResponseWriter.fresh r).status = some 200 ∧
    (handleRoot flags ResponseWriter.fresh r).body =
      lit "🌊 Seastat Cassandra Exporter " ++ flags.Version ++ lit " (Commit: "
        ++ flags.GitCommitHash ++ lit ")" ∧
    (handleRoot flags ResponseWriter.fresh r).headerCalls = 1 ∧
    (handleRoot flags ResponseWriter.fresh r).writeCalls = 1 ∧
    flags.Version <:+: (handleRoot flags ResponseWriter.fresh r).body ∧
    flags.GitCommitHash <:+: (handleRoot flags ResponseWriter.fresh r).body ∧
    ∀ r2 : Request,
      handleRoot flags ResponseWriter.fresh r2 = handleRoot flags ResponseWriter.fresh r := by
  refine ⟨rfl, by simp [handleRoot, ResponseWriter.Write, ResponseWriter.WriteHeader,
    ResponseWriter.fresh], rfl, rfl, ?_, ?_, fun _ => rfl⟩
  · refine ⟨lit "🌊 Seastat Cassandra Exporter ",
      lit " (Commit: " ++ flags.GitCommitHash ++ lit ")", ?_⟩
    simp [handleRoot, ResponseWriter.Write, ResponseWriter.WriteHeader, ResponseWriter.fresh]
  · refine ⟨lit "🌊 Seastat Cassandra Exporter " ++ flags.Version ++ lit " (Commit: ",
      lit ")", ?_⟩
    simp [handleRoot, ResponseWriter.Write, ResponseWriter.WriteHeader, ResponseWriter.fresh]

/-- C7. Each run of the `/healthz` handler calls `client.Version` exactly once, whatever the
call returns: the call counter of a counting client goes up by one and the client state is
the one after a single call. Serving `n` requests one after the other gives `n` responses,
raises the counter by exactly `n`, and leaves any client in the state `n` successive calls
of `Version` lead to. -/
theorem handleHealthz_one_query {σ : Type} (sb : Bool) (flags : Flags) (client : Client σ)
    (w : ResponseWriter) (r : Request) (rs : List Request) (st : σ) (n : Nat) :
    (handleHealthz sb flags client.counted w r (st, n)).2 = ((client.Version st).2, n + 1) ∧
    (serveHealthz sb flags client.counted rs (st, n)).2.2 = n + rs.length ∧
    (serveHealthz sb flags client.counted rs (st, n)).1.length = rs.length ∧
    (serveHealthz sb flags client rs st).2 = (fun x => (client.Version x).2)^[rs.length] st := by
  have h1 : ∀ (w : ResponseWriter) (r : Request) (st : σ) (n : Nat),
      (handleHealthz sb flags client.counted w r (st, n)).2 = ((client.Version st).2, n + 1) := by
    intro w r st n
    simp only [handleHealthz, Client.counted]
    cases (client.Version st).1.2 <;> rfl
  have h2 : ∀ (w : ResponseWriter) (r : Request) (st : σ),
      (handleHealthz sb flags client w r st).2 = (client.Version st).2 := by
    intro w r st
    simp only [handleHealthz]
    cases (client.Version st).1.2 <;> rfl
  refine ⟨h1 w r st n, ?_⟩
  induction rs generalizing st n with
  | nil => simp [serveHealthz]
  | cons q qs ih =>
    have h := h1 ResponseWriter.fresh q st n
    simp only [serveHealthz, List.length_cons, Function.iterate_succ, Function.comp_apply]
    rw [h, h2]
    have := ih (client.Version st).2 (n + 1)
    exact ⟨by omega, by omega, this.2.2⟩

/-- A string of bytes that `appendString` writes unescaped is quoted as it is. -/
theorem appendString_safe (sb : Bool) (v : GoString) (h : ∀ b ∈ v, htmlSafeSet b = true) :
    appendString sb v = 0x22 :: (v ++ [0x22]) := by
  have haux : ∀ v : GoString, (∀ b ∈ v, htmlSafeSet b = true) →
      appendStringAux sb 0 v = v := by
    intro v
    induction v with
    | nil => intro _; rfl
    | cons b rest ih =>
      intro hv
      have hb := hv b (List.mem_cons_self _ _)
      have hlt : b < 0x80 := by
        simp only [htmlSafeSet, decide_eq_true_eq] at hb
        omega
      have hc : encodeChunk sb (b :: rest) = ([b], 1) := by simp [encodeChunk, hlt, hb]
      simp only [appendStringAux, hc]
      rw [ih (fun x hx => hv x (List.mem_cons_of_mem _ hx))]
      rfl
  simp [appendString, haux v h]

/-- C1, as amended. For every result of `client.Version`, the `/healthz` handler calls
`WriteHeader` once and `Write` once. On `(v, nil)` the status is 200 and the body is the JSON
object with the members `jolokia` (the JSON string for `v`) and `seastat` (the JSON string for
`flags.Version`), in that order and nothing else; on a non-nil error `e` the status is 503 and
the body is the JSON object with the single member `error` (the JSON string for the text of
`e`). When the strings consist of bytes that need no escape, the JSON strings are the strings
themselves between quotes. Decoding the body gives back exactly these strings whenever they
are valid UTF-8. -/
theorem handleHealthz_response {σ : Type} (sb : Bool) (flags : Flags) (client : Client σ)
    (r : Request) (st : σ) :
    (handleHealthz sb flags client ResponseWriter.fresh r st).1.headerCalls = 1 ∧
    (handleHealthz sb flags client ResponseWriter.fresh r st).1.writeCalls = 1 ∧
    ((client.Version st).1.2 = none →
      (handleHealthz sb flags client ResponseWriter.fresh r st).1.status = some 200 ∧
      (handleHealthz sb flags client ResponseWriter.fresh r st).1.body =
        lit "\x7b\x22jolokia\x22:" ++ appendString sb (client.Version st).1.1
          ++ lit ",\x22seastat\x22:" ++ appendString sb flags.Version ++ lit "\x7d" ∧
      ((∀ b ∈ (client.Version st).1.1, htmlSafeSet b = true) →
        (∀ b ∈ flags.Version, htmlSafeSet b = true) →
        (handleHealthz sb flags client ResponseWriter.fresh r st).1.body =
          lit "\x7b\x22jolokia\x22:\x22" ++ (client.Version st).1.1
            ++ lit "\x22,\x22seastat\x22:\x22" ++ flags.Version ++ lit "\x22\x7d") ∧
      (validUTF8 (client.Version st).1.1 = true → validUTF8 flags.Version = true →
        jsonDecodeObject (handleHealthz sb flags client ResponseWriter.fresh r st).1.body =
          some [(lit "jolokia", (client.Version st).1.1), (lit "seastat", flags.Version)])) ∧
    (∀ e : GoError, (client.Version st).1.2 = some e →
      (handleHealthz sb flags client ResponseWriter.fresh r st).1.status = some 503 ∧
      (handleHealthz sb flags client ResponseWriter.fresh r st).1.body =
        lit "\x7b\x22error\x22:" ++ appendString sb e.Error ++ lit "\x7d" ∧
      ((∀ b ∈ e.Error, htmlSafeSet b = true) →
        (handleHealthz sb flags client ResponseWriter.fresh r st).1.body =
          lit "\x7b\x22error\x22:\x22" ++ e.Error ++ lit "\x22\x7d") ∧
      (validUTF8 e.Error = true →
        jsonDecodeObject (handleHealthz sb flags client ResponseWriter.fresh r st).1.body =
          some [(lit "error", e.Error)])) := by
  obtain ⟨vj, vs, ve⟩ := validUTF8_keys
  refine ⟨?_, ?_, ?_, ?_⟩
  · simp only [handleHealthz]
    cases (client.Version st).1.2 <;> rfl
  · simp only [handleHealthz]
    cases (client.Version st).1.2 <;> rfl
  · intro h
    have hb : (handleHealthz sb flags client ResponseWriter.fresh r st).1.body =
        jsonMarshalMap sb [(lit "jolokia", (client.Version st).1.1),
          (lit "seastat", flags.Version)] := by
      simp [handleHealthz, h, ResponseWriter.Write, ResponseWriter.WriteHeader,
        ResponseWriter.fresh]
    refine ⟨?_, ?_, ?_, ?_⟩
    · simp [handleHealthz, h, ResponseWriter.Write, ResponseWriter.WriteHeader,
        ResponseWriter.fresh, StatusOK]
    · rw [hb, jsonMarshalMap_versions]
    · intro h1 h2
      have e1 : lit "\x7b\x22jolokia\x22:\x22" = lit "\x7b\x22jolokia\x22:" ++ [0x22] := by
        decide
      have e2 : lit "\x22,\x22seastat\x22:\x22" =
          0x22 :: (lit ",\x22seastat\x22:" ++ [0x22]) := by decide
      have e3 : lit "\x22\x7d" = 0x22 :: lit "\x7d" := by decide
      rw [hb, jsonMarshalMap_versions, appendString_safe sb _ h1, appendString_safe sb _ h2,
        e1, e2, e3]
      simp
    · intro h1 h2
      rw [hb, jsonDecodeObject_jsonMarshalMap, sortByKey_jolokia_seastat]
      intro e he
      simp only [List.mem_cons, List.mem_singleton, List.not_mem_nil, or_false] at he
      rcases he with rfl | rfl
      · exact ⟨vj, h1⟩
      · exact ⟨vs, h2⟩
  · intro e h
    have hb : (handleHealthz sb flags client ResponseWriter.fresh r st).1.body =
        jsonMarshalMap sb [(lit "error", e.Error)] := by
      simp [handleHealthz, h, ResponseWriter.Write, ResponseWriter.WriteHeader,
        ResponseWriter.fresh, sprintfV]
    refine ⟨?_, ?_, ?_, ?_⟩
    · simp [handleHealthz, h, ResponseWriter.Write, ResponseWriter.WriteHeader,
        ResponseWriter.fresh, StatusServiceUnavailable]
    · rw [hb, jsonMarshalMap_error]
    · intro h1
      have e1 : lit "\x7b\x22error\x22:\x22" = lit "\x7b\x22error\x22:" ++ [0x22] := by
        decide
      have e3 : lit "\x22\x7d" = 0x22 :: lit "\x7d" := by decide
      rw [hb, jsonMarshalMap_error, appendString_safe sb _ h1, e1, e3]
      simp
    · intro h1
      rw [hb, jsonDecodeObject_jsonMarshalMap]
      · simp [sortByKey, insertByKey]
      · intro x hx
        simp only [List.mem_singleton] at hx
        subst hx
        exact ⟨ve, h1⟩

/-- The two examples of the specification: the probe result `("3.2.1", nil)` gives status 200
and the version object, the error `connection refused` gives status 503 and the error object;
both bodies decode to the strings they were written from. -/
theorem handleHealthz_response_witness :
    ((handleHealthz true sampleFlags (constClient (lit "3.2.1") none) ResponseWriter.fresh
        healthzRequest ()).1.status = some 200 ∧
      (handleHealthz true sampleFlags (constClient (lit "3.2.1") none) ResponseWriter.fresh
        healthzRequest ()).1.body =
        lit "\x7b\x22jolokia\x22:\x223.2.1\x22,\x22seastat\x22:\x221.0.0\x22\x7d" ∧
      jsonDecodeObject (handleHealthz true sampleFlags (constClient (lit "3.2.1") none)
        ResponseWriter.fresh healthzRequest ()).1.body =
        some [(lit "jolokia", lit "3.2.1"), (lit "seastat", lit "1.0.0")]) ∧
    ((handleHealthz true sampleFlags
        (constClient [] (some (GoError.other (lit "connection refused"))))
        ResponseWriter.fresh healthzRequest ()).1.status = some 503 ∧
      (handleHealthz true sampleFlags
        (constClient [] (some (GoError.other (lit "connection refused"))))
        ResponseWriter.fresh healthzRequest ()).1.body =
        lit "\x7b\x22error\x22:\x22connection refused\x22\x7d" ∧
      jsonDecodeObject (handleHealthz true sampleFlags
        (constClient [] (some (GoError.other (lit "connection refused"))))
        ResponseWriter.fresh healthzRequest ()).1.body =
        some [(lit "error", lit "connection refused")]) := by
  have h1 := (handleHealthz_response true sampleFlags (constClient (lit "3.2.1") none)
    healthzRequest ()).2.2.1 rfl
  have h2 := (handleHealthz_response true sampleFlags
    (constClient [] (some (GoError.other (lit "connection refused"))))
    healthzRequest ()).2.2.2 (GoError.other (lit "connection refused")) rfl
  exact ⟨⟨h1.1, h1.2.1.trans (by decide), h1.2.2.2 (by decide) (by decide)⟩,
    ⟨h2.1, h2.2.1.trans (by decide), h2.2.2.2 (by decide)⟩⟩

/-- C1 as stated fails for a version string that is not valid UTF-8: for the one-byte string
`0xFF` the handler answers 200, but the body carries the escape for U+FFFD, so decoding it gives
the three bytes of U+FFFD and not the version string. -/
theorem handleHealthz_invalid_utf8_not_recovered :
    (handleHealthz true sampleFlags invalidVersionClient ResponseWriter.fresh
      healthzRequest ()).1.status = some 200 ∧
    (handleHealthz true sampleFlags invalidVersionClient ResponseWriter.fresh
      healthzRequest ()).1.body =
      lit "\x7b\x22jolokia\x22:\x22\x5cufffd\x22,\x22seastat\x22:\x221.0.0\x22\x7d" ∧
    jsonDecodeObject (handleHealthz true sampleFlags invalidVersionClient ResponseWriter.fresh
      healthzRequest ()).1.body =
      some [(lit "jolokia", [0xEF, 0xBF, 0xBD]), (lit "seastat", lit "1.0.0")] ∧
    jsonDecodeObject (handleHealthz true sampleFlags invalidVersionClient ResponseWriter.fresh
      healthzRequest ()).1.body ≠
      some [(lit "jolokia", [0xFF]), (lit "seastat", lit "1.0.0")] := by
  decide

/-! ## The steps of `Run` -/

theorem notifyMain_cases (s : State) :
    notifyMain s = s ∨
    (s.main = .awaitTermination ∧ s.tomb.dying = true ∧
      notifyMain s = { s with main := .woken, wakeReason := some .tombDying }) ∨
    (s.main = .awaitDead ∧ s.tomb.dead = true ∧ notifyMain s = { s with main := .goodbye }) := by
  cases hm : s.main
  case awaitTermination =>
    cases hd : s.tomb.dying
    · left; simp [notifyMain, hm, hd]
    · right; left; simp [notifyMain, hm, hd]
  case awaitDead =>
    cases hd : s.tomb.dead
    · left; simp [notifyMain, hm, hd]
    · right; right; simp [notifyMain, hm, hd]
  all_goals left; simp [notifyMain, hm]

/-- How waking moves the goroutine of `Run`, after a worker step `e`. -/
theorem notifyMain_main (s s2 : State) (e : Event) (hm : s2.main = s.main)
    (he : e ≠ .timerFire) :
    (notifyMain s2).main = s.main ∨
    (s.main = .start ∧ e = .mainGo ∧ (notifyMain s2).main = .spawned) ∨
    (s.main = .spawned ∧ e = .mainSelect ∧
      ((notifyMain s2).main = .awaitTermination ∨
        ((notifyMain s2).main = .woken ∧ (notifyMain s2).tomb.dying = true ∧
          (notifyMain s2).wakeReason = some .tombDying))) ∨
    (s.main = .awaitTermination ∧ (notifyMain s2).main = .woken ∧
      ((e = .signal ∧ (notifyMain s2).wakeReason = some .signal) ∨
        ((notifyMain s2).tomb.dying = true ∧ (notifyMain s2).wakeReason = some .tombDying))) ∨
    (s.main = .woken ∧ e = .mainCancel ∧ (notifyMain s2).main = .cancelled) ∨
    (s.main = .cancelled ∧ e = .mainWait ∧
      ((notifyMain s2).main = .awaitDead ∨
        ((notifyMain s2).main = .goodbye ∧ (notifyMain s2).tomb.dead = true))) ∨
    (s.main = .awaitDead ∧ e = .timerFire ∧ (notifyMain s2).main = .timedOut) ∨
    (s.main = .awaitDead ∧ e ≠ .timerFire ∧ (notifyMain s2).main = .goodbye ∧
      (notifyMain s2).tomb.dead = true) ∨
    (s.main = .goodbye ∧ e = .mainReturn ∧ (notifyMain s2).main = .returned) ∨
    (s.main = .timedOut ∧ e = .mainExit ∧ (notifyMain s2).main = .exited) := by
  rcases notifyMain_cases s2 with h | ⟨h1, h2, h3⟩ | ⟨h1, h2, h3⟩
  · left; rw [h]; exact hm
  · right; right; right; left; rw [h3]; exact ⟨hm ▸ h1, rfl, Or.inr ⟨h2, rfl⟩⟩
  · right; right; right; right; right; right; right; left
    rw [h3]; exact ⟨hm ▸ h1, he, rfl, h2⟩

/-- How a step moves the goroutine of `Run`. -/
theorem step_main (s s1 : State) (e : Event) (hs : Run.step s e = some s1) :
    s1.main = s.main ∨
    (s.main = .start ∧ e = .mainGo ∧ s1.main = .spawned) ∨
    (s.main = .spawned ∧ e = .mainSelect ∧
      (s1.main = .awaitTermination ∨
        (s1.main = .woken ∧ s1.tomb.dying = true ∧ s1.wakeReason = some .tombDying))) ∨
    (s.main = .awaitTermination ∧ s1.main = .woken ∧
      ((e = .signal ∧ s1.wakeReason = some .signal) ∨
        (s1.tomb.dying = true ∧ s1.wakeReason = some .tombDying))) ∨
    (s.main = .woken ∧ e = .mainCancel ∧ s1.main = .cancelled) ∨
    (s.main = .cancelled ∧ e = .mainWait ∧
      (s1.main = .awaitDead ∨ (s1.main = .goodbye ∧ s1.tomb.dead = true))) ∨
    (s.main = .awaitDead ∧ e = .timerFire ∧ s1.main = .timedOut) ∨
    (s.main = .awaitDead ∧ e ≠ .timerFire ∧ s1.main = .goodbye ∧ s1.tomb.dead = true) ∨
    (s.main = .goodbye ∧ e = .mainReturn ∧ s1.main = .returned) ∨
    (s.main = .timedOut ∧ e = .mainExit ∧ s1.main = .exited) := by
  cases e
  case mainGo =>
    simp only [Run.step] at hs
    split_ifs at hs with c1 c2
    cases hg : s.tomb.Go <;> rw [hg] at hs <;> cases hs
    · left; rfl
    · right; left; exact ⟨c2, rfl, rfl⟩
  case mainSelect =>
    simp only [Run.step] at hs
    split_ifs at hs with c1 c2 c3 <;> cases hs
    · right; right; left; exact ⟨c2, rfl, Or.inr ⟨rfl, c3, rfl⟩⟩
    · right; right; left; exact ⟨c2, rfl, Or.inl rfl⟩
  case signal =>
    simp only [Run.step] at hs
    split_ifs at hs with c1
    split at hs <;> cases hs
    · rename_i hm
      right; right; right; left; exact ⟨hm, rfl, Or.inl ⟨rfl, rfl⟩⟩
    all_goals left; rfl
  case mainCancel =>
    simp only [Run.step] at hs
    split_ifs at hs with c1 c2
    cases hs
    right; right; right; right; left; exact ⟨c2, rfl, rfl⟩
  case mainWait =>
    simp only [Run.step] at hs
    split_ifs at hs with c1 c2 c3 <;> cases hs
    · right; right; right; right; right; left; exact ⟨c2, rfl, Or.inr ⟨rfl, c3⟩⟩
    · right; right; right; right; right; left; exact ⟨c2, rfl, Or.inl rfl⟩
  case timerFire =>
    simp only [Run.step] at hs
    split_ifs at hs with c1
    split at hs
    · rename_i t0 hm ht
      split_ifs at hs
      cases hs
      right; right; right; right; right; right; left; exact ⟨hm, rfl, rfl⟩
    · cases hs
  case mainExit =>
    simp only [Run.step] at hs
    split_ifs at hs with c1 c2
    cases hs
    right; right; right; right; right; right; right; right; right; exact ⟨c2, rfl, rfl⟩
  case mainReturn =>
    simp only [Run.step] at hs
    split_ifs at hs with c1 c2
    cases hs
    right; right; right; right; right; right; right; right; left; exact ⟨c2, rfl, rfl⟩
  case tick d =>
    simp only [Run.step] at hs
    split_ifs at hs with c1 c2
    cases hs
    left; rfl
  case outerGo =>
    simp only [Run.step] at hs
    split_ifs at hs with c1 c2
    cases hg : s.tomb.Go <;> rw [hg] at hs <;> cases hs <;> left <;> rfl
  case serveReturn err =>
    simp only [Run.step] at hs
    split_ifs at hs with c1 c2
    cases hs
    left; rfl
  case outerCheck =>
    simp only [Run.step] at hs
    split_ifs at hs with c1
    split at hs
    · split_ifs at hs
      · cases hs
        exact notifyMain_main s _ .outerCheck rfl (by decide)
      · cases hs
        left; rfl
    · cases hs
  case outerReturn =>
    simp only [Run.step] at hs
    split_ifs at hs with c1 c2
    cases hs
    exact notifyMain_main s _ .outerReturn rfl (by decide)
  case watcherDone =>
    simp only [Run.step] at hs
    split_ifs at hs with c1 c2
    cases hs
    left; rfl
  case watcherShutdown =>
    simp only [Run.step] at hs
    split_ifs at hs with c1 c2
    cases hs
    left; rfl
  case watcherReturn =>
    simp only [Run.step] at hs
    split_ifs at hs with c1 c2
    cases hs
    exact notifyMain_main s _ .watcherReturn rfl (by decide)

theorem notifyMain_tomb (s : State) : (notifyMain s).tomb = s.tomb := by
  rcases notifyMain_cases s with h | ⟨_, _, h⟩ | ⟨_, _, h⟩ <;> rw [h]

/-- A step never reopens the channels of the tomb and never makes it alive again. -/
theorem step_tomb (s s1 : State) (e : Event) (hs : Run.step s e = some s1) :
    (s.tomb.dying = true → s1.tomb.dying = true) ∧
    (s.tomb.dead = true → s1.tomb.dead = true) ∧
    (s.tomb.reason ≠ .stillAlive → s1.tomb.reason ≠ .stillAlive) := by
  have hgo : ∀ t : Tomb, s.tomb.Go = some t →
      t.dying = s.tomb.dying ∧ t.dead = s.tomb.dead ∧ t.reason = s.tomb.reason := by
    intro t ht
    simp only [Tomb.Go] at ht
    split_ifs at ht
    cases ht
    exact ⟨rfl, rfl, rfl⟩
  have hexit : ((s.tomb.dying = true → (s.tomb.runExit none).dying = true) ∧
      (s.tomb.dead = true → (s.tomb.runExit none).dead = true) ∧
      (s.tomb.reason ≠ .stillAlive → (s.tomb.runExit none).reason ≠ .stillAlive)) := by
    obtain ⟨_, r2, r3, r4⟩ := runExit_none s.tomb
    rw [r2, r3, r4]
    refine ⟨fun h => by simp [h], fun h => by simp [h], fun h => ?_⟩
    split_ifs with c
    · exact fun x => by cases x
    · exact h
  cases e
  case mainGo =>
    simp only [Run.step] at hs
    split_ifs at hs with c1 c2
    cases hg : s.tomb.Go <;> rw [hg] at hs <;> cases hs
    · exact ⟨id, id, id⟩
    · obtain ⟨a, b, c⟩ := hgo _ hg
      simp only [a, b, c]
      exact ⟨id, id, id⟩
  case mainSelect =>
    simp only [Run.step] at hs
    split_ifs at hs with c1 c2 c3 <;> cases hs <;> exact ⟨id, id, id⟩
  case signal =>
    simp only [Run.step] at hs
    split_ifs at hs with c1
    split at hs <;> cases hs <;> exact ⟨id, id, id⟩
  case mainCancel =>
    simp only [Run.step] at hs
    split_ifs at hs with c1 c2
    cases hs
    exact ⟨id, id, id⟩
  case mainWait =>
    simp only [Run.step] at hs
    split_ifs at hs with c1 c2 c3 <;> cases hs <;> exact ⟨id, id, id⟩
  case timerFire =>
    simp only [Run.step] at hs
    split_ifs at hs with c1
    split at hs
    · split_ifs at hs
      cases hs
      exact ⟨id, id, id⟩
    · cases hs
  case mainExit =>
    simp only [Run.step] at hs
    split_ifs at hs with c1 c2
    cases hs
    exact ⟨id, id, id⟩
  case mainReturn =>
    simp only [Run.step] at hs
    split_ifs at hs with c1 c2
    cases hs
    exact ⟨id, id, id⟩
  case tick d =>
    simp only [Run.step] at hs
    split_ifs at hs with c1 c2
    cases hs
    exact ⟨id, id, id⟩
  case outerGo =>
    simp only [Run.step] at hs
    split_ifs at hs with c1 c2
    cases hg : s.tomb.Go <;> rw [hg] at hs <;> cases hs
    · exact ⟨id, id, id⟩
    · obtain ⟨a, b, c⟩ := hgo _ hg
      simp only [a, b, c]
      exact ⟨id, id, id⟩
  case serveReturn err =>
    simp only [Run.step] at hs
    split_ifs at hs with c1 c2
    cases hs
    exact ⟨id, id, id⟩
  case outerCheck =>
    simp only [Run.step] at hs
    split_ifs at hs with c1
    split at hs
    · rename_i err _ _
      split_ifs at hs
      · cases hs
        rw [notifyMain_tomb]
        obtain ⟨_, r2, r3, r4⟩ := kill_some s.tomb (servingError err)
        simp only [r2, r3, r4]
        refine ⟨fun h => by simp [h], id, fun h => ?_⟩
        split_ifs with c
        · exact fun x => by cases x
        · exact h
      · cases hs
        exact ⟨id, id, id⟩
    · cases hs
  case outerReturn =>
    simp only [Run.step] at hs
    split_ifs at hs with c1 c2
    cases hs
    rw [notifyMain_tomb]
    exact hexit
  case watcherDone =>
    simp only [Run.step] at hs
    split_ifs at hs with c1 c2
    cases hs
    exact ⟨id, id, id⟩
  case watcherShutdown =>
    simp only [Run.step] at hs
    split_ifs at hs with c1 c2
    cases hs
    exact ⟨id, id, id⟩
  case watcherReturn =>
    simp only [Run.step] at hs
    split_ifs at hs with c1 c2
    cases hs
    rw [notifyMain_tomb]
    exact hexit

theorem step_ended (s : State) (e : Event) (h : s.ended = true) : Run.step s e = none := by
  cases e <;> simp [Run.step, h]

theorem run_stateAfter (es : List Event) (h : (Run.exec (State.init 0) es).isSome = true) :
    Run.exec (State.init 0) es = some (stateAfter es) := by
  unfold stateAfter
  cases hr : Run.exec (State.init 0) es with
  | none => rw [hr] at h; cases h
  | some s => rfl

theorem reachable_stateAfter (es : List Event) (h : (Run.exec (State.init 0) es).isSome = true) :
    Reachable (stateAfter es) :=
  ⟨0, es, run_stateAfter es h⟩

/-- How a step moves the phase of `Run`. -/
theorem step_phase (s s1 : State) (e : Event) (hs : Run.step s e = some s1) :
    phase s1 = phase s ∨
    (phase s = .idle ∧ phase s1 = .running ∧ e = .mainGo) ∨
    (phase s = .running ∧ phase s1 = .cancelling ∧
      ((e = .signal ∧ s1.wakeReason = some .signal) ∨
        (s1.tomb.dying = true ∧ s1.wakeReason = some .tombDying))) ∨
    (phase s = .cancelling ∧ phase s1 = .terminatedClean) ∨
    (phase s = .cancelling ∧ phase s1 = .terminatedForced) := by
  rcases step_main s s1 e hs with h | ⟨h, he, h1⟩ | ⟨h, _, h1 | ⟨h1, hd, hw⟩⟩ | ⟨h, h1, hw⟩ |
    ⟨h, _, h1⟩ | ⟨h, _, h1 | ⟨h1, _⟩⟩ | ⟨h, _, h1⟩ | ⟨h, _, h1, _⟩ | ⟨h, _, h1⟩ | ⟨h, _, h1⟩
  · left; simp [phase, h]
  · right; left; simp [phase, h, h1, he]
  · left; simp [phase, h, h1]
  · right; right; left; simp [phase, h, h1, hd, hw]
  · right; right; left; simp [phase, h, h1]; exact hw
  · left; simp [phase, h, h1]
  · left; simp [phase, h, h1]
  · left; simp [phase, h, h1]
  · left; simp [phase, h, h1]
  · left; simp [phase, h, h1]
  · right; right; right; left; simp [phase, h, h1]
  · right; right; right; right; simp [phase, h, h1]

/-- Where a step can take the goroutine of `Run` from each place at which it waits or has
just taken a case. -/
theorem step_main_from (s s1 : State) (e : Event) (hs : Run.step s e = some s1) :
    (s.main = .awaitTermination →
      s1.main = .awaitTermination ∨
      (s1.main = .woken ∧ ((e = .signal ∧ s1.wakeReason = some .signal) ∨
        (s1.tomb.dying = true ∧ s1.wakeReason = some .tombDying)))) ∧
    (s.main = .woken → s1.main = .woken ∨ (e = .mainCancel ∧ s1.main = .cancelled)) ∧
    (s.main = .awaitDead →
      s1.main = .awaitDead ∨ (e = .timerFire ∧ s1.main = .timedOut) ∨
      (e ≠ .timerFire ∧ s1.main = .goodbye ∧ s1.tomb.dead = true)) ∧
    (s.main = .timedOut → s1.main = .timedOut ∨ (e = .mainExit ∧ s1.main = .exited)) ∧
    (s.main = .goodbye → s1.main = .goodbye ∨ (e = .mainReturn ∧ s1.main = .returned)) := by
  rcases step_main s s1 e hs with h | ⟨a, -⟩ | ⟨b, -⟩ | ⟨c, c1, c2⟩ | ⟨d, d1, d2⟩ | ⟨f, -⟩ |
    ⟨g, g1, g2⟩ | ⟨k, k1, k2, k3⟩ | ⟨m, m1, m2⟩ | ⟨n, n1, n2⟩
  · rw [h]
    exact ⟨Or.inl, Or.inl, Or.inl, Or.inl, Or.inl⟩
  · simp [a]
  · simp [b]
  · simp [c, c1, c2]
  · simp [d, d1, d2]
  · simp [f]
  · simp [g, g1, g2]
  · simp [k, k1, k2, k3]
  · simp [m, m1, m2]
  · simp [n, n1, n2]

/-- Once the case of the timer has been taken: it was taken no earlier than the deadline, with
the tomb not dead. -/
theorem timeout_facts (s : State) (hI : Inv s) (hm : s.main.afterTimeout = true) :
    ∃ t0 t, s.timerStart = some t0 ∧ s.timeout = some (t, false) ∧
      t0 + gracePeriod ≤ t ∧ t ≤ s.now := by
  have h1 := hI.timer_iff
  have h2 := hI.timeout_iff
  have hts : s.main.timerSet = true := by
    cases hmm : s.main <;> simp [hmm, MainPc.afterTimeout] at hm <;> rfl
  rw [hts] at h1
  rw [hm] at h2
  cases ht : s.timerStart with
  | none => rw [ht] at h1; cases h1
  | some t0 =>
    cases hx : s.timeout with
    | none => rw [hx] at h2; cases h2
    | some x =>
      obtain ⟨t, b⟩ := x
      have h3 := hI.timeout_at t0 (t, b) ht hx
      simp only at h3
      obtain ⟨hb, hle1, hle2⟩ := h3
      subst hb
      exact ⟨t0, t, rfl, rfl, hle1, hle2⟩

/-! ## The claims about `Run` -/

/-- C8. Seen through the phases idle, running, cancelling, terminated-clean and
terminated-forced, every step of `Run` either stays in its phase or takes one of the four
listed transitions (idle to running, by starting the worker; running to cancelling, on a
signal or on the tomb dying; cancelling to terminated-clean; cancelling to terminated-forced),
each of which moves strictly forward and each of which some execution takes; no step leaves a
terminated phase; and no step reopens the tomb's `dying` or `dead` channel or resets its
reason to still-alive. -/
theorem phase_forward :
    (∀ (s s1 : State) (e : Event), Run.step s e = some s1 →
      (phase s1 = phase s ∨ PhaseStep (phase s) (phase s1)) ∧
      (phase s).rank ≤ (phase s1).rank ∧
      (phase s1 ≠ phase s → (phase s).rank < (phase s1).rank) ∧
      (phase s = .idle → phase s1 = .running → e = .mainGo) ∧
      (phase s = .running → phase s1 = .cancelling →
        (e = .signal ∧ s1.wakeReason = some .signal) ∨
          (s1.tomb.dying = true ∧ s1.wakeReason = some .tombDying)) ∧
      (s.tomb.dying = true → s1.tomb.dying = true) ∧
      (s.tomb.dead = true → s1.tomb.dead = true) ∧
      (s.tomb.reason ≠ .stillAlive → s1.tomb.reason ≠ .stillAlive)) ∧
    (∀ (s : State) (e : Event),
      phase s = .terminatedClean ∨ phase s = .terminatedForced → Run.step s e = none) ∧
    (∀ p q : Phase, PhaseStep p q → p.rank < q.rank) ∧
    (∀ p q : Phase, PhaseStep p q →
      ∃ (s s1 : State) (e : Event),
        Reachable s ∧ Run.step s e = some s1 ∧ phase s = p ∧ phase s1 = q) := by
  refine ⟨?_, ?_, ?_, ?_⟩
  · intro s s1 e hs
    obtain ⟨t1, t2, t3⟩ := step_tomb s s1 e hs
    refine ⟨?_, ?_, ?_, ?_, ?_, t1, t2, t3⟩
    · rcases step_phase s s1 e hs with h | ⟨h, h1, _⟩ | ⟨h, h1, _⟩ | ⟨h, h1⟩ | ⟨h, h1⟩
      · exact Or.inl h
      all_goals simp [PhaseStep, h, h1]
    · rcases step_phase s s1 e hs with h | ⟨h, h1, _⟩ | ⟨h, h1, _⟩ | ⟨h, h1⟩ | ⟨h, h1⟩
      · rw [h]
      all_goals simp [Phase.rank, h, h1]
    · rcases step_phase s s1 e hs with h | ⟨h, h1, _⟩ | ⟨h, h1, _⟩ | ⟨h, h1⟩ | ⟨h, h1⟩
      · intro hne; exact absurd h hne
      all_goals simp [Phase.rank, h, h1]
    · intro h0 h2
      rcases step_phase s s1 e hs with h | ⟨_, _, he⟩ | ⟨h, _, _⟩ | ⟨h, _⟩ | ⟨h, _⟩
      · rw [h, h0] at h2; cases h2
      · exact he
      · rw [h0] at h; cases h
      · rw [h0] at h; cases h
      · rw [h0] at h; cases h
    · intro h0 h2
      rcases step_phase s s1 e hs with h | ⟨h, _, _⟩ | ⟨_, _, hw⟩ | ⟨_, h1⟩ | ⟨_, h1⟩
      · rw [h, h0] at h2; cases h2
      · rw [h0] at h; cases h
      · exact hw
      · rw [h2] at h1; cases h1
      · rw [h2] at h1; cases h1
  · intro s e h
    apply step_ended
    rcases h with h | h <;>
      cases hm : s.main <;> simp [phase, hm] at h <;> simp [State.ended, hm]
  · intro p q h
    rcases h with ⟨rfl, rfl⟩ | ⟨rfl, rfl⟩ | ⟨rfl, rfl⟩ | ⟨rfl, rfl⟩ <;> decide
  · intro p q h
    rcases h with ⟨rfl, rfl⟩ | ⟨rfl, rfl⟩ | ⟨rfl, rfl⟩ | ⟨rfl, rfl⟩
    · exact ⟨State.init 0, stateAfter [.mainGo], .mainGo, reachable_init 0, by decide,
        by decide, by decide⟩
    · exact ⟨stateAfter [.mainGo, .outerGo, .mainSelect],
        stateAfter [.mainGo, .outerGo, .mainSelect, .signal], .signal,
        reachable_stateAfter _ (by decide), by decide, by decide, by decide⟩
    · exact ⟨stateAfter cleanTrace.dropLast, stateAfter cleanTrace, .mainReturn,
        reachable_stateAfter _ (by decide), by decide, by decide, by decide⟩
    · exact ⟨stateAfter forcedTrace.dropLast, stateAfter forcedTrace, .mainExit,
        reachable_stateAfter _ (by decide), by decide, by decide, by decide⟩

/-- An instance of C8: the first step of an execution, `t.Go` on line 41, takes `Run` from
idle to running, a listed transition that moves strictly forward. -/
theorem phase_forward_witness :
    Run.step (State.init 0) .mainGo = some (stateAfter [.mainGo]) ∧
    PhaseStep (phase (State.init 0)) (phase (stateAfter [.mainGo])) ∧
    (phase (State.init 0)).rank < (phase (stateAfter [.mainGo])).rank :=
  ⟨by decide,
    ((phase_forward.1 (State.init 0) (stateAfter [.mainGo]) .mainGo (by decide)).1).resolve_left
      (by decide),
    (phase_forward.1 (State.init 0) (stateAfter [.mainGo]) .mainGo (by decide)).2.2.1
      (by decide)⟩

/-- C10. In every reachable state `t.Go` has not panicked. The outer `t.Go` is called on the
fresh tomb. When the nested `t.Go` is about to be called (the HTTP worker has started and not
yet registered the watcher) the tomb counts at least one live goroutine and `dead` is open, so
the call is accepted. And `dead` is closed only when both the HTTP worker and the watcher have
been registered and have returned. -/
theorem tombGo_accepted (s : State) (h : Reachable s) :
    s.panicked = false ∧
    (s.main = .start → s.tomb = Tomb.fresh ∧ (s.tomb.Go).isSome = true) ∧
    (s.outer = .started →
      s.watcher = .notStarted ∧ 1 ≤ s.tomb.alive ∧ s.tomb.dead = false ∧
        (s.tomb.Go).isSome = true) ∧
    (s.tomb.dead = true → s.outer = .done ∧ s.watcher = .done) := by
  have hI := inv_reachable s h
  refine ⟨hI.notPanicked, ?_, ?_, hI.dead_iff.mp⟩
  · intro hm
    have ho := hI.start_iff.mp hm
    have hw := hI.watcher_iff.mpr (Or.inl ho)
    have ha := hI.alive_eq
    rw [ho, hw] at ha
    have hd : s.tomb.dead = false := by
      cases hd : s.tomb.dead
      · rfl
      · have := (hI.dead_iff.mp hd).1; rw [ho] at this; cases this
    have hk : s.killLog = [] := by
      rw [hI.kill_eq, ho]
      cases s.listenErr <;> simp [expectedKillLog, OuterPc.afterCheck]
    have hdy : s.tomb.dying = false := by
      cases hdy : s.tomb.dying
      · rfl
      · rcases hI.dying_cause hdy with h1 | h1
        · exact absurd hk h1
        · rw [hd] at h1; cases h1
    have hr : s.tomb.reason = .stillAlive := by
      by_contra hr
      have := hI.dying_iff.mpr hr
      rw [hdy] at this; cases this
    have ht : s.tomb = Tomb.fresh := by
      cases ht : s.tomb with
      | mk alive dying dead reason =>
        rw [ht] at ha hd hdy hr
        simp only at ha hd hdy hr
        simp [Tomb.fresh, ha, hd, hdy, hr, OuterPc.active, WatcherPc.active]
    exact ⟨ht, by rw [ht]; rfl⟩
  · intro ho
    have hw := hI.watcher_iff.mpr (Or.inr ho)
    have ha := hI.alive_eq
    rw [ho, hw] at ha
    have hd : s.tomb.dead = false := by
      cases hd : s.tomb.dead
      · rfl
      · have := (hI.dead_iff.mp hd).1; rw [ho] at this; cases this
    refine ⟨hw, ?_, hd, ?_⟩
    · rw [ha]; simp [OuterPc.active, WatcherPc.active]
    · simp [Tomb.Go, hd]

/-- An instance of C10: right after the outer `t.Go`, when the nested `t.Go` is next, the
tomb counts one live goroutine and accepts the call. -/
theorem tombGo_accepted_witness :
    Reachable (stateAfter [.mainGo]) ∧ (stateAfter [.mainGo]).outer = .started ∧
    1 ≤ (stateAfter [.mainGo]).tomb.alive ∧ ((stateAfter [.mainGo]).tomb.Go).isSome = true :=
  ⟨reachable_stateAfter _ (by decide), by decide,
    ((tombGo_accepted (stateAfter [.mainGo]) (reachable_stateAfter _ (by decide))).2.2.1
      (by decide)).2.1,
    ((tombGo_accepted (stateAfter [.mainGo]) (reachable_stateAfter _ (by decide))).2.2.1
      (by decide)).2.2.2⟩

/-- With a context that is already done, `Shutdown` returns at its first poll, whatever the
connections do. -/
theorem srvShutdown_done (idle : Nat → Bool) (fuel : Nat) :
    srvShutdown (fun _ => true) idle (fuel + 1) 0 =
      some (1, if idle 0 then ShutdownResult.drained else ShutdownResult.contextError) := by
  simp only [srvShutdown]
  split_ifs <;> rfl

/-- C9. In every reachable state the watcher has called `srv.Shutdown` at most once; each call
was made with the shared context already cancelled (so `cancel()` had been called), and with
such a context `Shutdown` returns at its first poll whatever the connections do. Every result
the watcher has returned is nil, it returns exactly once, and an error reason of the tomb
always comes from a call of `t.Kill`, never from the watcher. -/
theorem watcher_shutdown_once (s : State) (h : Reachable s) :
    s.shutdownLog.length ≤ 1 ∧
    (∀ c ∈ s.shutdownLog, c = true ∧ s.ctxDone = true ∧ s.cancelCalls = 1 ∧
      ∀ (idle : Nat → Bool) (fuel : Nat), ∃ r,
        srvShutdown (fun _ => c) idle (fuel + 1) 0 = some (1, r)) ∧
    (s.shutdownLog ≠ [] → s.watcher = .finishing ∨ s.watcher = .done) ∧
    (∀ r ∈ s.watcherResults, r = none) ∧
    (s.watcher = .done ↔ s.watcherResults = [none]) ∧
    (∀ msg, s.tomb.reason = .err msg → s.killLog = [some msg]) := by
  have hI := inv_reachable s h
  have hs := hI.shutdown_eq
  have hr := hI.results_eq
  refine ⟨?_, ?_, ?_, ?_, ?_, hI.reason_err⟩
  · rw [hs]; split_ifs <;> simp
  · intro c hc
    rw [hs] at hc
    split_ifs at hc with hw
    · simp only [List.mem_singleton] at hc
      subst hc
      have hctx : s.ctxDone = true := hI.watcher_ctx (Or.inr hw)
      have hm : s.main.afterCancel = true := by rw [← hI.ctx_eq]; exact hctx
      refine ⟨rfl, hctx, ?_, fun idle fuel => ⟨_, srvShutdown_done idle fuel⟩⟩
      rw [hI.cancel_eq, hm]; rfl
    · cases hc
  · intro hne
    rw [hs] at hne
    split_ifs at hne with hw
    · exact hw
    · exact absurd rfl hne
  · intro r hr1
    rw [hr] at hr1
    split_ifs at hr1
    · simpa using hr1
    · cases hr1
  · rw [hr]
    constructor
    · intro hw; simp [hw]
    · intro hw
      by_contra c
      rw [if_neg c] at hw
      cases hw

/-- An instance of C9: in the clean execution, once the watcher has returned, `Shutdown` has
been called once, with the cancelled context, and the watcher's result is nil. -/
theorem watcher_shutdown_once_witness :
    Reachable (stateAfter cleanTrace) ∧ (stateAfter cleanTrace).shutdownLog = [true] ∧
    (stateAfter cleanTrace).shutdownLog.length ≤ 1 ∧
    ((stateAfter cleanTrace).watcher = .done ↔ (stateAfter cleanTrace).watcherResults = [none]) :=
  ⟨reachable_stateAfter _ (by decide), by decide,
    (watcher_shutdown_once (stateAfter cleanTrace) (reachable_stateAfter _ (by decide))).1,
    (watcher_shutdown_once (stateAfter cleanTrace)
      (reachable_stateAfter _ (by decide))).2.2.2.2.1⟩

/-- C3. In every reachable state: before the test on line 49 the HTTP worker has not called
`t.Kill`. After the test, with `err` the value `ListenAndServe` returned, `t.Kill` has been
called if and only if `err` is not `http.ErrServerClosed`; if it was called, it was called
once, with the non-nil error built from `err`, the tomb is dying and that error is its reason;
if `err` is `http.ErrServerClosed` there was no call, and the tomb is dying only if it is
already dead (every goroutine has returned). `cancel()` is never called twice. -/
theorem kill_iff_not_server_closed (s : State) (h : Reachable s) :
    (s.outer.afterCheck = false → s.killLog = []) ∧
    (∀ err, s.listenErr = some err → s.outer.afterCheck = true →
      (s.killLog ≠ [] ↔ err ≠ some GoError.ErrServerClosed) ∧
      (err ≠ some GoError.ErrServerClosed →
        s.killLog = [some (servingError err)] ∧ s.tomb.dying = true ∧
          s.tomb.reason = .err (servingError err)) ∧
      (err = some GoError.ErrServerClosed →
        s.killLog = [] ∧ (s.tomb.dying = true → s.tomb.dead = true))) ∧
    (∀ a ∈ s.killLog, a ≠ none) ∧
    s.killLog.length ≤ 1 ∧
    s.cancelCalls ≤ 1 := by
  have hI := inv_reachable s h
  have hk := hI.kill_eq
  refine ⟨?_, ?_, ?_, ?_, ?_⟩
  · intro hc
    rw [hk]
    cases s.listenErr <;> simp [expectedKillLog, hc]
  · intro err hl hc
    have hk2 : s.killLog =
        if err ≠ some GoError.ErrServerClosed then [some (servingError err)] else [] := by
      rw [hk, hl]; simp [expectedKillLog, hc]
    refine ⟨?_, ?_, ?_⟩
    · rw [hk2]; split_ifs with c <;> simp [c]
    · intro c
      rw [if_pos c] at hk2
      have hr := hI.kill_reason _ hk2
      exact ⟨hk2, hI.dying_iff.mpr (by rw [hr]; exact fun x => by cases x), hr⟩
    · intro c
      have hk3 : s.killLog = [] := by rw [hk2]; simp [c]
      refine ⟨hk3, fun hd => ?_⟩
      rcases hI.dying_cause hd with h1 | h1
      · exact absurd hk3 h1
      · exact h1
  · intro a ha
    rw [hk] at ha
    cases hl : s.listenErr with
    | none => rw [hl] at ha; simp [expectedKillLog] at ha
    | some err =>
      rw [hl] at ha
      simp only [expectedKillLog] at ha
      split_ifs at ha
      · simp only [List.mem_singleton] at ha
        rw [ha]; exact fun x => by cases x
      · cases ha
  · rw [hk]
    cases s.listenErr with
    | none => simp [expectedKillLog]
    | some err =>
      simp only [expectedKillLog]
      split_ifs <;> simp
  · rw [hI.cancel_eq]; split_ifs <;> simp

/-- Two instances of C3: when `ListenAndServe` returned the bind error the worker called
`t.Kill` once with a non-nil error and the tomb is dying; when it returned
`http.ErrServerClosed` there was no call. -/
theorem kill_iff_not_server_closed_witness :
    (Reachable (stateAfter bindFailureTrace) ∧
      (stateAfter bindFailureTrace).killLog = [some (servingError (some bindError))] ∧
      (stateAfter bindFailureTrace).tomb.dying = true) ∧
    (Reachable (stateAfter cleanTrace) ∧ (stateAfter cleanTrace).killLog = []) :=
  ⟨⟨reachable_stateAfter _ (by decide),
      (((kill_iff_not_server_closed (stateAfter bindFailureTrace)
        (reachable_stateAfter _ (by decide))).2.1 (some bindError) (by decide)
        (by decide)).2.1 (by decide)).1,
      (((kill_iff_not_server_closed (stateAfter bindFailureTrace)
        (reachable_stateAfter _ (by decide))).2.1 (some bindError) (by decide)
        (by decide)).2.1 (by decide)).2.1⟩,
    ⟨reachable_stateAfter _ (by decide),
      (((kill_iff_not_server_closed (stateAfter cleanTrace)
        (reachable_stateAfter _ (by decide))).2.1 (some GoError.ErrServerClosed) (by decide)
        (by decide)).2.2 rfl).1⟩⟩

/-- C4. In every reachable state `cancel()` has been called at most once, and exactly once
from the moment the goroutine of `Run` is past line 66; the context is cancelled exactly then.
It is not called before the first `select` has taken a case: a delivered signal, or the tomb
dying. The first `select` is entered blocked unless the tomb is dying already. While `Run` is
blocked in it, the tomb is not dying and `cancel()` has not been called; a signal ends the
wait; whatever the next step is, `Run` stays blocked only if the step is not a signal and
leaves the tomb not dying, and otherwise the wait is over in that very step, with `cancel()`
next; and if `ListenAndServe` has returned an error other than `http.ErrServerClosed`, the
test on line 49 is enabled, kills the tomb and ends the wait. Once a case is taken (the log
call of line 62 or 64 is next), `cancel()` is the only statement by which `Run` moves on, the
step is enabled and does the same whichever case was taken and whatever the workers are
doing, and the wait that follows arms the same timer and looks at `dead` in the same way. -/
theorem cancel_exactly_once (s : State) (h : Reachable s) :
    s.cancelCalls ≤ 1 ∧
    (s.cancelCalls = 1 ↔ s.main.afterCancel = true) ∧
    (s.ctxDone = true ↔ s.cancelCalls = 1) ∧
    (s.cancelCalls = 1 →
      (s.wakeReason = some .signal ∧ 1 ≤ s.signals) ∨
        (s.wakeReason = some .tombDying ∧ s.tomb.dying = true)) ∧
    (s.main = .woken →
      s.cancelCalls = 0 ∧
      ((s.wakeReason = some .signal ∧ 1 ≤ s.signals) ∨
        (s.wakeReason = some .tombDying ∧ s.tomb.dying = true)) ∧
      Run.step s .mainCancel =
        some { s with ctxDone := true, cancelCalls := 1, main := .cancelled } ∧
      (∀ r, Run.step { s with wakeReason := r } .mainCancel =
        some { s with wakeReason := r, ctxDone := true, cancelCalls := 1, main := .cancelled }) ∧
      (∀ e s1, Run.step s e = some s1 → s1.main ≠ .woken → e = .mainCancel)) ∧
    (s.main = .cancelled →
      Run.step s .mainWait =
        some { s with timerStart := some s.now,
                      main := if s.tomb.dead = true then .goodbye else .awaitDead } ∧
      (∀ r, Run.step { s with wakeReason := r } .mainWait =
        some { s with wakeReason := r, timerStart := some s.now,
                      main := if s.tomb.dead = true then .goodbye else .awaitDead })) ∧
    (s.main = .spawned →
      s.cancelCalls = 0 ∧
      Run.step s .mainSelect =
        some (if s.tomb.dying = true then { s with main := .woken, wakeReason := some .tombDying }
          else { s with main := .awaitTermination })) ∧
    (s.main = .awaitTermination →
      s.tomb.dying = false ∧ s.cancelCalls = 0 ∧
      Run.step s .signal =
        some { s with main := .woken, wakeReason := some .signal, signals := s.signals + 1 } ∧
      (∀ e s1, Run.step s e = some s1 →
        (s1.main = .awaitTermination ∧ s1.tomb.dying = false ∧ e ≠ .signal) ∨
        (s1.main = .woken ∧ s1.cancelCalls = 0 ∧
          ((e = .signal ∧ s1.wakeReason = some .signal) ∨
            (s1.tomb.dying = true ∧ s1.wakeReason = some .tombDying)) ∧
          Run.step s1 .mainCancel =
            some { s1 with ctxDone := true, cancelCalls := 1, main := .cancelled })) ∧
      (∀ err, s.outer = .served → s.listenErr = some err →
        err ≠ some GoError.ErrServerClosed →
        ∃ s1, Run.step s .outerCheck = some s1 ∧ s1.tomb.dying = true ∧
          s1.tomb.reason = .err (servingError err) ∧ s1.main = .woken ∧
          s1.wakeReason = some .tombDying ∧ s1.cancelCalls = 0 ∧
          Run.step s1 .mainCancel =
            some { s1 with ctxDone := true, cancelCalls := 1, main := .cancelled })) := by
  have hI := inv_reachable s h
  have hc := hI.cancel_eq
  have hp := hI.notPanicked
  have hwk : s.main.afterWake = true →
      (s.wakeReason = some .signal ∧ 1 ≤ s.signals) ∨
        (s.wakeReason = some .tombDying ∧ s.tomb.dying = true) := by
    intro ha
    have hw := hI.wake_iff
    rw [ha] at hw
    cases hr : s.wakeReason with
    | none => rw [hr] at hw; cases hw
    | some r =>
      cases r
      · exact Or.inl ⟨rfl, hI.wake_signal hr⟩
      · exact Or.inr ⟨rfl, hI.wake_dying hr⟩
  have hnext : ∀ e s1, s.main = .awaitTermination → Run.step s e = some s1 →
      (s1.main = .awaitTermination ∧ s1.tomb.dying = false ∧ e ≠ .signal) ∨
      (s1.main = .woken ∧ s1.cancelCalls = 0 ∧
        ((e = .signal ∧ s1.wakeReason = some .signal) ∨
          (s1.tomb.dying = true ∧ s1.wakeReason = some .tombDying)) ∧
        Run.step s1 .mainCancel =
          some { s1 with ctxDone := true, cancelCalls := 1, main := .cancelled }) := by
    intro e s1 hm hs
    have hI1 := inv_step s s1 e hI hs
    have hp1 := hI1.notPanicked
    rcases (step_main_from s s1 e hs).1 hm with hm1 | ⟨h1, hw⟩
    · refine Or.inl ⟨hm1, hI1.parked_first hm1, ?_⟩
      intro he
      subst he
      simp [Run.step, State.ended, hm, hp] at hs
      subst hs
      cases hm1
    · have h01 : s1.cancelCalls = 0 := by rw [hI1.cancel_eq, h1]; rfl
      refine Or.inr ⟨h1, h01, hw, ?_⟩
      simp [Run.step, State.ended, h1, hp1, h01]
  refine ⟨?_, ?_, ?_, ?_, ?_, ?_, ?_, ?_⟩
  · rw [hc]; split_ifs <;> simp
  · rw [hc]; split_ifs with c <;> simp [c]
  · rw [hc, hI.ctx_eq]; split_ifs with c <;> simp [c]
  · intro h1
    apply hwk
    rw [hc] at h1
    cases hm : s.main <;> simp [hm, MainPc.afterCancel] at h1 <;> rfl
  · intro hm
    have h0 : s.cancelCalls = 0 := by rw [hc, hm]; rfl
    refine ⟨h0, hwk (by rw [hm]; rfl), ?_, ?_, ?_⟩
    · simp [Run.step, State.ended, hm, hp, h0]
    · intro r
      simp [Run.step, State.ended, hm, hp, h0]
    · intro e s1 hs hne
      rcases (step_main_from s s1 e hs).2.1 hm with h1 | ⟨he, _⟩
      · exact absurd h1 hne
      · exact he
  · intro hm
    constructor
    · cases hd : s.tomb.dead <;> simp [Run.step, State.ended, hm, hp, hd]
    · intro r
      cases hd : s.tomb.dead <;> simp [Run.step, State.ended, hm, hp, hd]
  · intro hm
    have h0 : s.cancelCalls = 0 := by rw [hc, hm]; rfl
    refine ⟨h0, ?_⟩
    cases hd : s.tomb.dying <;> simp [Run.step, State.ended, hm, hp, hd]
  · intro hm
    have h0 : s.cancelCalls = 0 := by rw [hc, hm]; rfl
    refine ⟨hI.parked_first hm, h0, ?_, fun e s1 hs => hnext e s1 hm hs, ?_⟩
    · simp [Run.step, State.ended, hm, hp]
    · intro err ho hl hne
      have hs : Run.step s .outerCheck = some (notifyMain { s with
          tomb := s.tomb.kill (some (servingError err))
          killLog := some (servingError err) :: s.killLog
          outer := .finishing }) := by
        simp [Run.step, State.ended, hm, hp, ho, hl, hne]
      refine ⟨_, hs, ?_⟩
      have hI1 := inv_step s _ _ hI hs
      have hst : s.tomb.reason = .stillAlive := by
        by_contra hr
        have := hI.dying_iff.mpr hr
        rw [hI.parked_first hm] at this
        cases this
      have hdy : (notifyMain { s with
          tomb := s.tomb.kill (some (servingError err))
          killLog := some (servingError err) :: s.killLog
          outer := .finishing }).tomb.dying = true := by
        rw [notifyMain_tomb]
        simp [(kill_some s.tomb (servingError err)).2.2.1, hst]
      have hre : (notifyMain { s with
          tomb := s.tomb.kill (some (servingError err))
          killLog := some (servingError err) :: s.killLog
          outer := .finishing }).tomb.reason = .err (servingError err) := by
        rw [notifyMain_tomb]
        simp [(kill_some s.tomb (servingError err)).2.2.2, hst]
      rcases hnext _ _ hm hs with ⟨h1, h2, _⟩ | ⟨h1, h01, hw, hcn⟩
      · rw [hdy] at h2; cases h2
      · rcases hw with ⟨he, _⟩ | ⟨_, hw⟩
        · cases he
        · exact ⟨hdy, hre, h1, hw, h01, hcn⟩

/-- Three instances of C4: whether the first wait was ended by a signal (the clean execution)
or by the tomb dying (the listener failing before the `select` is entered), `cancel()` has
been called exactly once at the end; and when the listener fails while `Run` is blocked in the
first `select`, the test on line 49 kills the tomb and ends the wait, with `cancel()` next. -/
theorem cancel_exactly_once_witness :
    (Reachable (stateAfter cleanTrace) ∧ (stateAfter cleanTrace).wakeReason = some .signal ∧
      (stateAfter cleanTrace).cancelCalls = 1) ∧
    (Reachable (stateAfter bindFailureTrace) ∧
      (stateAfter bindFailureTrace).wakeReason = some .tombDying ∧
      (stateAfter bindFailureTrace).cancelCalls = 1) ∧
    (Reachable (stateAfter parkedFailureTrace) ∧
      (stateAfter parkedFailureTrace).main = .awaitTermination ∧
      (stateAfter parkedFailureTrace).listenErr = some (some bindError) ∧
      ∃ s1, Run.step (stateAfter parkedFailureTrace) .outerCheck = some s1 ∧
        s1.tomb.dying = true ∧ s1.tomb.reason = .err (servingError (some bindError)) ∧
        s1.main = .woken ∧ s1.wakeReason = some .tombDying ∧ s1.cancelCalls = 0 ∧
        Run.step s1 .mainCancel =
          some { s1 with ctxDone := true, cancelCalls := 1, main := .cancelled }) :=
  ⟨⟨reachable_stateAfter _ (by decide), by decide,
      (cancel_exactly_once (stateAfter cleanTrace)
        (reachable_stateAfter _ (by decide))).2.1.mpr (by decide)⟩,
    ⟨reachable_stateAfter _ (by decide), by decide,
      (cancel_exactly_once (stateAfter bindFailureTrace)
        (reachable_stateAfter _ (by decide))).2.1.mpr (by decide)⟩,
    ⟨reachable_stateAfter _ (by decide), by decide, by decide,
      ((cancel_exactly_once (stateAfter parkedFailureTrace)
        (reachable_stateAfter _ (by decide))).2.2.2.2.2.2.2 (by decide)).2.2.2.2
        (some bindError) (by decide) (by decide) (by decide)⟩⟩

/-- What every execution keeps of the second wait. The grace period is ten seconds. An exit
status, if there is one, is 128 and comes from line 74. If the case of the timer has been
taken, `cancel()` had been called and the case was taken no earlier than ten seconds after the
timer was set, with the tomb not dead. If the case of `dead` has been taken, `cancel()` had
been called, the tomb is dead, and there is no exit status, now or later. While `Run` is
blocked in the second `select` the tomb is not dead; before the deadline the case of the timer
cannot be taken, from the deadline on it can; and whatever the next step is, `Run` takes the
case of `dead` in it if and only if the step closes `dead`, and takes the case of the timer
only if the step is the timer delivering. After the case of the timer, the only statement by
which `Run` moves on is the exit with status 128 (lines 73-74); after the case of `dead`, the
return (lines 71, 76). -/
theorem second_wait_outcome (s : State) (h : Reachable s) :
    gracePeriod = 10 * 1000000000 ∧
    (∀ c, s.exitStatus = some c → c = 128 ∧ s.main = .exited) ∧
    (s.main.afterTimeout = true →
      s.cancelCalls = 1 ∧
        ∃ t0 t, s.timerStart = some t0 ∧ s.timeout = some (t, false) ∧
          t0 + gracePeriod ≤ t ∧ t ≤ s.now) ∧
    (s.main = .exited → s.exitStatus = some 128) ∧
    (s.main = .goodbye ∨ s.main = .returned →
      s.exitStatus = none ∧ s.tomb.dead = true ∧ s.cancelCalls = 1 ∧ s.timeout = none) ∧
    (s.main = .awaitDead →
      s.tomb.dead = false ∧ s.exitStatus = none ∧ s.cancelCalls = 1 ∧
        ∃ t0, s.timerStart = some t0 ∧ t0 ≤ s.now ∧
          (s.now < t0 + gracePeriod → Run.step s .timerFire = none) ∧
          (t0 + gracePeriod ≤ s.now →
            Run.step s .timerFire =
              some { s with main := .timedOut, timeout := some (s.now, false) }) ∧
          (∀ e s1, Run.step s e = some s1 →
            (s1.main = .awaitDead ∧ s1.tomb.dead = false) ∨
            (s1.main = .goodbye ∧ s1.tomb.dead = true ∧ e ≠ .timerFire) ∨
            (s1.main = .timedOut ∧ s1.tomb.dead = false ∧ e = .timerFire))) ∧
    (s.main = .timedOut →
      Run.step s .mainExit = some { s with main := .exited, exitStatus := some 128 } ∧
      (∀ e s1, Run.step s e = some s1 → s1.main ≠ .timedOut → e = .mainExit)) ∧
    (s.main = .goodbye →
      Run.step s .mainReturn = some { s with main := .returned } ∧
      (∀ e s1, Run.step s e = some s1 → s1.main ≠ .goodbye → e = .mainReturn)) := by
  have hI := inv_reachable s h
  have hp := hI.notPanicked
  have hcc : s.main.afterCancel = true → s.cancelCalls = 1 := by
    intro ha; rw [hI.cancel_eq, ha]; rfl
  refine ⟨rfl, ?_, ?_, ?_, ?_, ?_, ?_, ?_⟩
  · intro c hc
    rw [hI.exit_eq] at hc
    split_ifs at hc with hm
    cases hc
    exact ⟨rfl, hm⟩
  · intro hm
    refine ⟨hcc ?_, timeout_facts s hI hm⟩
    cases hmm : s.main <;> simp [hmm, MainPc.afterTimeout] at hm <;> rfl
  · intro hm
    rw [hI.exit_eq, if_pos hm]; rfl
  · intro hm
    have hto := hI.timeout_iff
    refine ⟨?_, hI.returned_dead hm, hcc ?_, ?_⟩
    · rw [hI.exit_eq, if_neg (by rcases hm with hm | hm <;> rw [hm] <;> exact fun x => by cases x)]
    · rcases hm with hm | hm <;> rw [hm] <;> rfl
    · have : s.main.afterTimeout = false := by rcases hm with hm | hm <;> rw [hm] <;> rfl
      rw [this] at hto
      cases hx : s.timeout with
      | none => rfl
      | some x => rw [hx] at hto; cases hto
  · intro hm
    have hex : s.exitStatus = none := by
      rw [hI.exit_eq, if_neg (by rw [hm]; exact fun x => by cases x)]
    have hdd := hI.parked_second hm
    have h1 := hI.timer_iff
    rw [hm] at h1
    cases ht : s.timerStart with
    | none => rw [ht] at h1; cases h1
    | some t0 =>
      refine ⟨hdd, hex, hcc (by rw [hm]; rfl), t0, rfl, hI.timer_le t0 ht, ?_, ?_, ?_⟩
      · intro hlt
        have : ¬ (t0 + gracePeriod ≤ s.now) := by omega
        simp [Run.step, State.ended, hm, hp, ht, this]
      · intro hle
        simp [Run.step, State.ended, hm, hp, ht, hle, hdd]
      · intro e s1 hs
        have hI1 := inv_step s s1 e hI hs
        rcases (step_main_from s s1 e hs).2.2.1 hm with hm1 | ⟨he, h1⟩ | ⟨he, h1, hd⟩
        · exact Or.inl ⟨hm1, hI1.parked_second hm1⟩
        · right; right
          refine ⟨h1, ?_, he⟩
          subst he
          simp [Run.step, State.ended, hm, hp, ht] at hs
          obtain ⟨_, hs⟩ := hs
          subst hs
          exact hdd
        · exact Or.inr (Or.inl ⟨h1, hd, he⟩)
  · intro hm
    constructor
    · simp [Run.step, State.ended, hm, hp, forcedExitStatus]
    · intro e s1 hs hne
      rcases (step_main_from s s1 e hs).2.2.2.1 hm with h1 | ⟨he, _⟩
      · exact absurd h1 hne
      · exact he
  · intro hm
    constructor
    · simp [Run.step, State.ended, hm, hp]
    · intro e s1 hs hne
      rcases (step_main_from s s1 e hs).2.2.2.2 hm with h1 | ⟨he, _⟩
      · exact absurd h1 hne
      · exact he

/-- C2 fails on the code, against the comment of line 68 ("Wait a maximum of 10 seconds for
everything to cleanly shut down"). In the execution `blockedLogTrace` a signal ends the first
wait at time 0, `cancel()` is called and the timer of line 72 is set at time 0; the log sink
accepts no writes, so the HTTP worker stays in the log call of line 53 and the tomb is not
dead; at ten seconds `Run` takes the case of the timer, with the tomb not dead, and enters the
log call of line 73, which comes before `os.Exit(128)` and does not return. Twenty-five
seconds after `cancel()`, ten seconds having elapsed with the tomb not dead, the process has
not been terminated: `Run` is still at line 73 and there is no exit status; and the clock can
go on by any amount with nothing changed. -/
theorem forced_exit_outlives_deadline :
    Run.exec (State.init 0) blockedLogTrace = some (stateAfter blockedLogTrace) ∧
    (stateAfter blockedLogTrace).cancelCalls = 1 ∧
    (stateAfter blockedLogTrace).wakeReason = some .signal ∧
    (stateAfter blockedLogTrace).outer = .finishing ∧
    (stateAfter blockedLogTrace).timerStart = some 0 ∧
    (stateAfter blockedLogTrace).timeout = some (gracePeriod, false) ∧
    (stateAfter blockedLogTrace).now = gracePeriod + 15000000000 ∧
    (stateAfter blockedLogTrace).tomb.dead = false ∧
    (stateAfter blockedLogTrace).main = .timedOut ∧
    (stateAfter blockedLogTrace).exitStatus = none ∧
    (∀ d, Run.step (stateAfter blockedLogTrace) (.tick (d + 1)) =
      some { stateAfter blockedLogTrace with now := gracePeriod + 15000000000 + (d + 1) }) :=
  ⟨by decide, by decide, by decide, by decide, by decide,
    ⟨by decide, by decide, by decide, by decide, by decide, fun _ => rfl⟩⟩

/-- C5 as stated fails: in the execution `bindFailureTrace` the listener fails at startup
(`ListenAndServe` returns the bind error, which is not `http.ErrServerClosed`), and `Run`
ends by returning normally, the tomb dead, with no exit status. -/
theorem listener_failure_returns_normally :
    Run.exec (State.init 0) bindFailureTrace = some (stateAfter bindFailureTrace) ∧
    (stateAfter bindFailureTrace).listenErr = some (some bindError) ∧
    bindError ≠ GoError.ErrServerClosed ∧
    (stateAfter bindFailureTrace).main = .returned ∧
    (stateAfter bindFailureTrace).tomb.dead = true ∧
    (stateAfter bindFailureTrace).exitStatus = none := by
  decide

/-- C5, as amended. In every reachable state in which `ListenAndServe` has returned an error
other than `http.ErrServerClosed` and the worker is past the test on line 49: the tomb is
dying with that error as its reason, so `Run` is not blocked in its first `select`; the only
exit status `Run` can have produced is 128, and only after the case of the timer was taken, no
earlier than ten seconds after the timer was set and with the tomb not dead; and if `Run` has
returned, the tomb is dead and there is no exit status. -/
theorem listener_failure_outcome (s : State) (h : Reachable s) (err : Option GoError)
    (hl : s.listenErr = some err) (hne : err ≠ some GoError.ErrServerClosed)
    (hc : s.outer.afterCheck = true) :
    s.killLog = [some (servingError err)] ∧
    s.tomb.dying = true ∧ s.tomb.reason = .err (servingError err) ∧
    s.main ≠ .awaitTermination ∧
    (s.exitStatus = none ∨ s.exitStatus = some 128) ∧
    (s.exitStatus = some 128 ↔ s.main = .exited) ∧
    (s.main = .exited →
      ∃ t0 t, s.timerStart = some t0 ∧ s.timeout = some (t, false) ∧
        t0 + gracePeriod ≤ t ∧ t ≤ s.now) ∧
    (s.main = .returned → s.tomb.dead = true ∧ s.exitStatus = none) := by
  have hI := inv_reachable s h
  have hk : s.killLog = [some (servingError err)] := by
    rw [hI.kill_eq, hl]; simp [expectedKillLog, hc, hne]
  have hr := hI.kill_reason _ hk
  have hd : s.tomb.dying = true := hI.dying_iff.mpr (by rw [hr]; exact fun x => by cases x)
  have hex := hI.exit_eq
  refine ⟨hk, hd, hr, ?_, ?_, ?_, ?_, ?_⟩
  · intro hm
    have := hI.parked_first hm
    rw [hd] at this; cases this
  · rw [hex]; split_ifs
    · right; rfl
    · left; rfl
  · rw [hex]
    constructor
    · intro h1
      by_contra hm
      rw [if_neg hm] at h1; cases h1
    · intro hm
      rw [if_pos hm]; rfl
  · intro hm
    exact timeout_facts s hI (by rw [hm]; rfl)
  · intro hm
    refine ⟨hI.returned_dead (Or.inr hm), ?_⟩
    rw [hex, if_neg (by rw [hm]; exact fun x => by cases x)]

/-- An instance of C5 as amended: at the end of `bindFailureTrace` the tomb is dying with the
bind error as its reason, `Run` has returned and there is no exit status. -/
theorem listener_failure_outcome_witness :
    Reachable (stateAfter bindFailureTrace) ∧
    (stateAfter bindFailureTrace).listenErr = some (some bindError) ∧
    (stateAfter bindFailureTrace).tomb.reason = .err (servingError (some bindError)) ∧
    ((stateAfter bindFailureTrace).exitStatus = none ∨
      (stateAfter bindFailureTrace).exitStatus = some 128) :=
  ⟨reachable_stateAfter _ (by decide), by decide,
    (listener_failure_outcome (stateAfter bindFailureTrace)
      (reachable_stateAfter _ (by decide)) (some bindError) (by decide) (by decide)
      (by decide)).2.2.1,
    (listener_failure_outcome (stateAfter bindFailureTrace)
      (reachable_stateAfter _ (by decide)) (some bindError) (by decide) (by decide)
      (by decide)).2.2.2.2.1⟩
end Seastat
